import Mathlib

/-!
Mailpit: configuration checks, HTTP middleware and the message store.

A shallow embedding of

* `config/config.go`  (`VerifyConfig`, `isFile`),
* `server/server.go`  (`basicAuthResponse`, `middleWareFunc`, `getStartLimit`),
* the storage engine exercised by `storage/database_test.go`, whose operations
  are described in the specification (sections 3, 4.B to 4.E and 7).

Go library calls (`os.Stat`, `htpasswd.New`, `regexp`, `strconv.Atoi`,
`compress/gzip`, `net/http`) are represented by small models of their documented
behaviour or by explicit parameters.
-/

/-- The outcome of running Go code that may panic instead of returning. -/
inductive Run (α : Type) where
  | returned (a : α)
  | panicked
  deriving Repr

deriving instance DecidableEq for Except

namespace Run

/-- Sequencing: a panic stops everything that follows. -/
def bind {α β : Type} (x : Run α) (f : α → Run β) : Run β :=
  match x with
  | returned a => f a
  | panicked => panicked

end Run

namespace config

/-- A Go `error` value as `VerifyConfig` produces it: `New msg` is built by
`errors.New` or `fmt.Errorf` in this package, `htpasswd msg` comes back from
`htpasswd.New`. -/
inductive Error where
  | New (msg : String)
  | htpasswd (msg : String)
  deriving DecidableEq, Repr

/-- A loaded password file, `*htpasswd.File`, seen through its `Match` method. -/
structure HtpasswdFile where
  Match : String → String → Bool

/-- The three outcomes of `os.Stat` that `isFile` can tell apart: file
information (with `Mode().IsRegular()`), an error for which `os.IsNotExist`
holds, and any other error (permission denied, not a directory, ...). -/
inductive StatResult where
  | info (isRegular : Bool)
  | errNotExist
  | errOther
  deriving DecidableEq, Repr

/-- The file system and the password-file loader that `VerifyConfig` consults. -/
structure Env where
  Stat : String → StatResult
  htpasswdNew : String → Except String HtpasswdFile

/-- The package-level variables of `config`, with their initial values. -/
structure Config where
  SMTPListen : String := "0.0.0.0:1025"
  HTTPListen : String := "0.0.0.0:8025"
  DataDir : String := ""
  MaxMessages : Int := 500
  VerboseLogging : Bool := false
  NoLogging : Bool := false
  UISSLCert : String := ""
  UISSLKey : String := ""
  UIAuthFile : String := ""
  UIAuth : Option HtpasswdFile := none
  SMTPSSLCert : String := ""
  SMTPSSLKey : String := ""
  SMTPAuthFile : String := ""
  SMTPAuth : Option HtpasswdFile := none

/-- The character class `[a-zA-Z0-9\.\-]` of the bind pattern. -/
def bindClass (c : Char) : Bool :=
  c.isAlphanum || c == '.' || c == '-'

/-- The pattern `^[a-zA-Z0-9\.\-]{3,}:\d{2,}$` of `VerifyConfig`: at least
three class characters, a colon, at least two decimal digits, and nothing else.
The colon is outside the class, so the first part is the longest class run. -/
def reMatchString (s : String) : Bool :=
  let cs := s.toList
  match cs.dropWhile bindClass with
  | ':' :: port =>
      decide (3 ≤ (cs.takeWhile bindClass).length) && decide (2 ≤ port.length)
        && port.all Char.isDigit
  | _ => false

/-- Translation of `isFile`: `os.IsNotExist(err) || !info.Mode().IsRegular()`.
When `os.Stat` fails with another error, `info` is nil and `info.Mode()`
panics. -/
def isFile (env : Env) (path : String) : Run Bool :=
  match env.Stat path with
  | StatResult.errNotExist => Run.returned false
  | StatResult.info isRegular => Run.returned isRegular
  | StatResult.errOther => Run.panicked

/-- What `VerifyConfig` hands back: the `error` (`none` is nil) and the
package variables as it leaves them. -/
abbrev Verdict := Option Error × Config

/-- The tail of `VerifyConfig` from the SMTP password file on (lines 106-122). -/
def verifySMTPAuth (env : Env) (c : Config) : Run Verdict :=
  if c.SMTPAuthFile ≠ "" then
    (isFile env c.SMTPAuthFile).bind fun ok =>
      if !ok then
        Run.returned (some (Error.New ("SMTP password file not found: " ++ c.SMTPAuthFile)), c)
      else if c.SMTPSSLCert = "" then
        Run.returned (some (Error.New "SMTP authentication requires SMTP encryption"), c)
      else
        match env.htpasswdNew c.SMTPAuthFile with
        | Except.error e => Run.returned (some (Error.htpasswd e), c)
        | Except.ok a => Run.returned (none, { c with SMTPAuth := some a })
  else
    Run.returned (none, c)

/-- The SMTP certificate checks of `VerifyConfig` (lines 92-104), then the rest. -/
def verifySMTPSSL (env : Env) (c : Config) : Run Verdict :=
  if c.SMTPSSLCert ≠ "" ∧ c.SMTPSSLKey = "" ∨ c.SMTPSSLCert = "" ∧ c.SMTPSSLKey ≠ "" then
    Run.returned (some (Error.New "you must provide both an SMTP SSL certificate and a key"), c)
  else if c.SMTPSSLCert ≠ "" then
    (isFile env c.SMTPSSLCert).bind fun okCert =>
      if !okCert then
        Run.returned (some (Error.New ("SMTP SSL certificate not found: " ++ c.SMTPSSLCert)), c)
      else
        (isFile env c.SMTPSSLKey).bind fun okKey =>
          if !okKey then
            Run.returned (some (Error.New ("SMTP SSL key not found: " ++ c.SMTPSSLKey)), c)
          else
            verifySMTPAuth env c
  else
    verifySMTPAuth env c

/-- The UI certificate checks of `VerifyConfig` (lines 78-90), then the rest. -/
def verifyUISSL (env : Env) (c : Config) : Run Verdict :=
  if c.UISSLCert ≠ "" ∧ c.UISSLKey = "" ∨ c.UISSLCert = "" ∧ c.UISSLKey ≠ "" then
    Run.returned (some (Error.New "you must provide both a UI SSL certificate and a key"), c)
  else if c.UISSLCert ≠ "" then
    (isFile env c.UISSLCert).bind fun okCert =>
      if !okCert then
        Run.returned (some (Error.New ("SSL certificate not found: " ++ c.UISSLCert)), c)
      else
        (isFile env c.UISSLKey).bind fun okKey =>
          if !okKey then
            Run.returned (some (Error.New ("SSL key not found: " ++ c.UISSLKey)), c)
          else
            verifySMTPSSL env c
  else
    verifySMTPSSL env c

/-- The UI password file block of `VerifyConfig` (lines 66-76), then the rest. -/
def verifyUIAuth (env : Env) (c : Config) : Run Verdict :=
  if c.UIAuthFile ≠ "" then
    (isFile env c.UIAuthFile).bind fun ok =>
      if !ok then
        Run.returned (some (Error.New ("HTTP password file not found: " ++ c.UIAuthFile)), c)
      else
        match env.htpasswdNew c.UIAuthFile with
        | Except.error e => Run.returned (some (Error.htpasswd e), c)
        | Except.ok a => verifyUISSL env { c with UIAuth := some a }
  else
    verifyUISSL env c

/-- Translation of `VerifyConfig`: the two bind-address checks, then the
blocks above in source order. -/
def VerifyConfig (env : Env) (c : Config) : Run Verdict :=
  if !reMatchString c.SMTPListen then
    Run.returned (some (Error.New "SMTP bind should be in the format of <ip>:<port>"), c)
  else if !reMatchString c.HTTPListen then
    Run.returned (some (Error.New "HTTP bind should be in the format of <ip>:<port>"), c)
  else
    verifyUIAuth env c

/-- The error component of a run that returned, `none` for a panic. -/
def returnedError (r : Run Verdict) : Option (Option Error) :=
  match r with
  | Run.returned v => some v.1
  | Run.panicked => none

/-- A file system in which every path is a regular file and every password
file loads (accepting the single account `admin` / `secret`). -/
def envAllFiles : Env where
  Stat := fun _ => StatResult.info true
  htpasswdNew := fun _ => Except.ok ⟨fun u p => u == "admin" && p == "secret"⟩

end config


namespace server

/-- A Go byte slice. -/
abbrev Bytes := List UInt8

/-- The conversion `[]byte(s)`. -/
def goBytes (s : String) : Bytes := s.toUTF8.toList

/-- The constant `http.StatusUnauthorized`. -/
def StatusUnauthorized : Nat := 401

/-- The constant `http.StatusNotFound`. -/
def StatusNotFound : Nat := 404

/-- The constant `http.StatusBadRequest`. -/
def StatusBadRequest : Nat := 400

/-- What the handlers of `server.go` read from an `*http.Request`: the result
of `r.BasicAuth()` (`none` when `ok` is false), the header fields under their
canonical names, and the decoded pairs of the URL query in order. -/
structure Request where
  basicAuth : Option (String × String) := none
  header : List (String × String) := []
  query : List (String × String) := []

/-- The first value stored under a key, or the empty string. -/
def firstValue (kvs : List (String × String)) (key : String) : String :=
  match kvs.find? (fun kv => kv.1 == key) with
  | some kv => kv.2
  | none => ""

/-- The bytes allowed in a header field name (the token characters). -/
def validHeaderFieldChar (c : Char) : Bool :=
  c.isAlphanum || [33, 35, 36, 37, 38, 39, 42, 43, 45, 46, 94, 95, 96, 124, 126].contains c.toNat

/-- The letter-case pass of `textproto.CanonicalMIMEHeaderKey`: a letter is
upper case at the start and after a hyphen, lower case elsewhere. -/
def canonicalCase : Bool → List Char → List Char
  | _, [] => []
  | upper, c :: cs =>
      let c1 := if upper then c.toUpper else c.toLower
      c1 :: canonicalCase (c1 == '-') cs

/-- Model of `textproto.CanonicalMIMEHeaderKey`, which `http.Header.Set` and
`http.Header.Get` apply to their key: a name with a byte that is not allowed is
left as it is. -/
def CanonicalMIMEHeaderKey (key : String) : String :=
  if key.toList.all validHeaderFieldChar then String.mk (canonicalCase true key.toList) else key

/-- The call `h.Get(key)` on an `http.Header`. -/
def HeaderGet (h : List (String × String)) (key : String) : String :=
  firstValue h (CanonicalMIMEHeaderKey key)

/-- The call `r.Header.Get(key)`. -/
def Request.headerGet (r : Request) (key : String) : String := HeaderGet r.header key

/-- The call `req.URL.Query().Get(key)`. -/
def Request.queryGet (r : Request) (key : String) : String := firstValue r.query key

/-- Whether the second list opens the first one. -/
def startsWith : List Char → List Char → Bool
  | _, [] => true
  | [], _ :: _ => false
  | c :: cs, d :: ds => c == d && startsWith cs ds

/-- Whether the second list occurs somewhere inside the first one. -/
def occursIn : List Char → List Char → Bool
  | [], sub => sub.isEmpty
  | c :: cs, sub => startsWith (c :: cs) sub || occursIn cs sub

/-- The call `strings.Contains(s, substr)`. -/
def stringsContains (s substr : String) : Bool := occursIn s.toList substr.toList

/-- The connection side of an `http.ResponseWriter`: the header map, the
status line with the header fields as they were when it was sent (`none` until
then), and the body bytes written so far. -/
structure ResponseWriter where
  header : List (String × String) := []
  wrote : Option (Nat × List (String × String)) := none
  body : Bytes := []
  deriving DecidableEq, Repr

/-- The call `Header().Set(key, value)`: the canonical key keeps this one value. -/
def ResponseWriter.HeaderSet (w : ResponseWriter) (key value : String) : ResponseWriter :=
  let k := CanonicalMIMEHeaderKey key
  { w with header := (k, value) :: w.header.filter (fun kv => kv.1 != k) }

/-- The call `WriteHeader(code)`: the first call sends the status line and the
header map of that moment, a later call changes nothing. -/
def ResponseWriter.WriteHeader (w : ResponseWriter) (code : Nat) : ResponseWriter :=
  match w.wrote with
  | some _ => w
  | none => { w with wrote := some (code, w.header) }

/-- The call `Write(b)`: sends status 200 first when no status was sent yet. -/
def ResponseWriter.Write (w : ResponseWriter) (b : Bytes) : ResponseWriter :=
  let w1 := w.WriteHeader 200
  { w1 with body := w1.body ++ b }

/-- The part of `compress/gzip` the middleware depends on: the stream header a
`gzip.Writer` emits before the first data, and the compressed blocks with the
trailer that it has emitted once closed. -/
structure GzipCodec where
  streamHeader : Bytes
  finish : Bytes → Bytes

/-- The state of a `gzip.Writer`: whether the stream header went out, and the
data taken in so far. -/
structure GzipWriter where
  wroteHeader : Bool := false
  pending : Bytes := []
  deriving DecidableEq, Repr

/-- An `http.ResponseWriter` interface value as a handler receives it: the
connection itself, or a `gzipResponseWriter` around another writer. -/
inductive Writer where
  | conn (w : ResponseWriter)
  | gzip (gz : GzipWriter) (inner : Writer)
  deriving DecidableEq, Repr

namespace Writer

/-- The connection a writer ends in. -/
def underlying : Writer → ResponseWriter
  | conn w => w
  | gzip _ inner => inner.underlying

/-- The call `w.Header().Set(key, value)`; `gzipResponseWriter` takes `Header`
from the embedded `http.ResponseWriter`. -/
def HeaderSet : Writer → String → String → Writer
  | conn w, key, value => conn (w.HeaderSet key value)
  | gzip gz inner, key, value => gzip gz (inner.HeaderSet key value)

/-- The call `w.WriteHeader(code)`; `gzipResponseWriter` takes it from the
embedded `http.ResponseWriter`. -/
def WriteHeader : Writer → Nat → Writer
  | conn w, code => conn (w.WriteHeader code)
  | gzip gz inner, code => gzip gz (inner.WriteHeader code)

/-- The call `w.Write(b)`; `gzipResponseWriter.Write` hands the bytes to the
`gzip.Writer`, which sends its stream header to the wrapped writer before the
first data and keeps the data until it is closed. -/
def Write (codec : GzipCodec) : Writer → Bytes → Writer
  | conn w, b => conn (w.Write b)
  | gzip gz inner, b =>
      let inner1 := if gz.wroteHeader then inner else Write codec inner codec.streamHeader
      gzip { wroteHeader := true, pending := gz.pending ++ b } inner1

/-- The deferred `gz.Close()`: the stream header if it is still due, then the
compressed data and trailer, all written to the wrapped writer. -/
def closeGzip (codec : GzipCodec) : Writer → Writer
  | conn w => conn w
  | gzip gz inner =>
      let inner1 := if gz.wroteHeader then inner else Write codec inner codec.streamHeader
      Write codec inner1 (codec.finish gz.pending)

end Writer

/-- An `http.HandlerFunc`, as the effect it has on the writer it is given and
on the rest of the program state `σ` it works on (the message store, its own
counters). -/
abbrev HandlerFunc (σ : Type) := Writer → Request → σ → Writer × σ

/-- Translation of `basicAuthResponse`. -/
def basicAuthResponse (codec : GzipCodec) (w : Writer) : Writer :=
  ((w.HeaderSet "WWW-Authenticate" "Basic realm=\"Login\"").WriteHeader StatusUnauthorized).Write
    codec (goBytes "Unauthorised.\n")

/-- Translation of `fourOFour`. -/
def fourOFour (codec : GzipCodec) (w : Writer) : Writer :=
  ((w.WriteHeader StatusNotFound).HeaderSet "Content-Type" "text/plain").Write
    codec (goBytes "404 page not found")

/-- Translation of `httpError`. -/
def httpError (codec : GzipCodec) (w : Writer) (msg : String) : Writer :=
  ((w.WriteHeader StatusBadRequest).HeaderSet "Content-Type" "text/plain").Write
    codec (goBytes msg)

/-- The second half of the closure in `middleWareFunc` (lines 97-105): call
`fn` directly, or on a `gzipResponseWriter` that is closed afterwards. -/
def serve {σ : Type} (codec : GzipCodec) (fn : HandlerFunc σ) (w : Writer) (r : Request)
    (s : σ) : Writer × σ :=
  if !stringsContains (r.headerGet "Accept-Encoding") "gzip" then
    fn w r s
  else
    let w1 := w.HeaderSet "Content-Encoding" "gzip"
    let out := fn (Writer.gzip {} w1) r s
    (Writer.closeGzip codec out.1, out.2)

/-- Translation of the closure returned by `middleWareFunc(fn)`: the state of
the writer and of the program when it has returned. Calling `Match` on the nil
`config.UIAuth` panics. -/
def middleWareFunc {σ : Type} (codec : GzipCodec) (cfg : config.Config) (fn : HandlerFunc σ)
    (w : Writer) (r : Request) (s : σ) : Run (Writer × σ) :=
  if cfg.UIAuthFile ≠ "" then
    match r.basicAuth with
    | none => Run.returned (basicAuthResponse codec w, s)
    | some (user, pass) =>
        match cfg.UIAuth with
        | none => Run.panicked
        | some a =>
            if !a.Match user pass then
              Run.returned (basicAuthResponse codec w, s)
            else
              Run.returned (serve codec fn w r s)
  else
    Run.returned (serve codec fn w r s)

/-- A handler with a count of its own invocations added to the state it works
on: the count goes up by one each time the handler runs, and only then. -/
def counted {σ : Type} (fn : HandlerFunc σ) : HandlerFunc (σ × Nat) :=
  fun w r sn => ((fn w r sn.1).1, ((fn w r sn.1).2, sn.2 + 1))

/-- What a run returned, `none` for a panic. -/
def returnedValue {α : Type} (x : Run α) : Option α :=
  match x with
  | Run.returned a => some a
  | Run.panicked => none

/-- Why `strconv.Atoi` failed: `ErrSyntax` or `ErrRange`. -/
inductive NumError where
  | ErrSyntax
  | ErrRange
  deriving DecidableEq, Repr

/-- The value of a run of decimal digits. -/
def digitsValue (ds : List Char) : Nat :=
  ds.foldl (fun acc d => 10 * acc + (d.toNat - '0'.toNat)) 0

/-- Model of `strconv.Atoi` for an `int` of `intSize` bits, after its
documentation (`ParseInt(s, 10, 0)`): an optional sign, then one or more decimal
digits; `ErrSyntax` for anything else, `ErrRange` when the value does not fit. -/
def Atoi (intSize : Nat) (s : String) : Except NumError Int :=
  let cs := s.toList
  let neg := cs.head? == some '-'
  let ds := match cs with
    | '+' :: rest => rest
    | '-' :: rest => rest
    | _ => cs
  if ds.isEmpty || !ds.all Char.isDigit then
    Except.error NumError.ErrSyntax
  else
    let un := digitsValue ds
    let cutoff := 2 ^ (intSize - 1)
    if !neg && decide (cutoff ≤ un) then Except.error NumError.ErrRange
    else if neg && decide (cutoff < un) then Except.error NumError.ErrRange
    else Except.ok (if neg then - (un : Int) else (un : Int))

/-- One of the two blocks of `getStartLimit`: the parsed value when `Atoi`
succeeds with `n > 0`, else the default. -/
def positiveOr (intSize : Nat) (dflt : Int) (s : String) : Int :=
  match Atoi intSize s with
  | Except.ok n => if 0 < n then n else dflt
  | Except.error _ => dflt

/-- Translation of `getStartLimit`, for an `int` of `intSize` bits. -/
def getStartLimit (intSize : Nat) (req : Request) : Int × Int :=
  let start := positiveOr intSize 0 (req.queryGet "start")
  let limit := positiveOr intSize 50 (req.queryGet "limit")
  (start, limit)

/-- The integer a string denotes when it is an optional sign followed by one
or more decimal digits, with no bound on its size. -/
def decimalInteger (s : String) : Option Int :=
  let cs := s.toList
  let ds := match cs with
    | '+' :: rest => rest
    | '-' :: rest => rest
    | _ => cs
  if ds.isEmpty || !ds.all Char.isDigit then none
  else if cs.head? == some '-' then some (- (digitsValue ds : Int))
  else some (digitsValue ds : Int)

/-- The claimed result of `getStartLimit`, word for word: each parameter is
taken when it is a decimal integer greater than zero, else 0 and 50. -/
def claimedStartLimit (req : Request) : Int × Int :=
  let pick (dflt : Int) (s : String) : Int :=
    match decimalInteger s with
    | some n => if 0 < n then n else dflt
    | none => dflt
  (pick 0 (req.queryGet "start"), pick 50 (req.queryGet "limit"))

/-- A handler that answers every request with `fourOFour` and leaves the
program state alone. -/
def notFoundHandler (codec : GzipCodec) : HandlerFunc Unit := fun w _ s => (fourOFour codec w, s)

/-- A stand-in codec with a two-byte stream header that leaves data as it is. -/
def plainCodec : GzipCodec where
  streamHeader := [31, 139]
  finish := fun b => b

end server

namespace server

/-- The condition under which the wrapped handler lets a request through: no
password file is configured, or the request carries credentials that the
loaded password file accepts. -/
def allowed (cfg : config.Config) (r : Request) : Prop :=
  cfg.UIAuthFile = "" ∨
    ∃ user pass a, r.basicAuth = some (user, pass) ∧ cfg.UIAuth = some a ∧
      a.Match user pass = true

/-- A configuration with a password file loaded from `/etc/mailpit/htpasswd`. -/
def cfgWithAuth : config.Config :=
  { UIAuthFile := "/etc/mailpit/htpasswd",
    UIAuth := some ⟨fun u p => u == "admin" && p == "secret"⟩ }

/-- A request with the wrong password that accepts gzip. -/
def reqWrongPassword : Request :=
  { basicAuth := some ("admin", "guess"), header := [("Accept-Encoding", "gzip")] }

/-- A request with the right password that accepts gzip. -/
def reqRightPassword : Request :=
  { basicAuth := some ("admin", "secret"), header := [("Accept-Encoding", "gzip")] }

/-- A configuration that names a password file which was never loaded:
`UIAuth` is still nil. -/
def cfgAuthNotLoaded : config.Config := { UIAuthFile := "/etc/mailpit/htpasswd" }

/-- A request whose `start` parameter is 2^63, one more than the largest
64-bit `int`. -/
def reqHugeStart : Request := { query := [("start", "9223372036854775808")] }

end server

namespace config

/-- A file system where `os.Stat` fails on `/etc/hostname/htpasswd` with an
error other than "does not exist" (the parent is a file, not a directory) and
every other path is a regular file. -/
def envNotDir : Env where
  Stat := fun p => if p = "/etc/hostname/htpasswd" then StatResult.errOther else StatResult.info true
  htpasswdNew := fun _ => Except.ok ⟨fun _ _ => false⟩

/-- A configuration with a UI certificate but no UI key, and a password file
under a path that cannot be inspected. -/
def cfgCertOnly : Config :=
  { UIAuthFile := "/etc/hostname/htpasswd", UISSLCert := "cert.pem" }

/-- A configuration with SMTP authentication and both SMTP certificate files. -/
def cfgSMTPAuth : Config :=
  { SMTPAuthFile := "smtp.htpasswd", SMTPSSLCert := "cert.pem", SMTPSSLKey := "key.pem" }

end config

namespace storage

/-- A raw RFC-5322 byte blob. -/
abbrev Bytes := List UInt8

/-- Modelled from the spec: the mail address record `{name, address}` of the
parsed message (section 3); the storage sources are not part of the tree. -/
structure MailAddress where
  Name : String := ""
  Address : String := ""
  deriving DecidableEq, Repr

/-- Modelled from the spec: the Part descriptor `{part_id, content_type,
filename, content_id, size, transfer_encoding}` (section 3). -/
structure Part where
  PartID : String := ""
  ContentType : String := ""
  FileName : String := ""
  ContentID : String := ""
  Size : Nat := 0
  TransferEncoding : String := ""
  deriving DecidableEq, Repr

/-- Modelled from the spec: the Parsed Message of section 3. `Date` is `none`
when the header is missing or cannot be read, until `Store` falls back to the
ingest time. -/
structure ParsedMessage where
  From : MailAddress := {}
  To : List MailAddress := []
  Cc : List MailAddress := []
  Bcc : List MailAddress := []
  ReplyTo : List MailAddress := []
  Subject : String := ""
  Date : Option Nat := none
  MessageID : String := ""
  Text : String := ""
  HTML : String := ""
  Attachments : List Part := []
  Inline : List Part := []
  Headers : List (String × String) := []
  deriving DecidableEq, Repr

/-- Modelled from the spec: the Summary `{id, from, to_short, subject, date,
size, read, snippet}` of section 3. -/
structure Summary where
  ID : Nat
  From : MailAddress
  To : List MailAddress
  Subject : String
  Date : Nat
  Size : Nat
  Read : Bool
  Snippet : String
  deriving DecidableEq, Repr

/-- Modelled from the spec: the MIME parser (component A, section 4.A), which
is not part of the tree. It is total: a parse failure yields a minimally
populated message. -/
structure Parser where
  parse : Bytes → ParsedMessage

/-- Modelled from the spec: one step of splitting into words; the second
component is the word being read, in reverse. -/
def wordsStep (acc : List (List Char) × List Char) (c : Char) : List (List Char) × List Char :=
  if c.isAlphanum then (acc.1, c :: acc.2)
  else if acc.2.isEmpty then acc
  else (acc.2.reverse :: acc.1, [])

/-- Modelled from the spec: the maximal runs of alphanumeric characters of a text, in order. -/
def words (cs : List Char) : List (List Char) :=
  let r := cs.foldl wordsStep ([], [])
  (if r.2.isEmpty then r.1 else r.2.reverse :: r.1).reverse

/-- Modelled from the spec: the Tokenizer of section 4.B. Lowercase, split on
every run of non-alphanumeric characters, drop empty tokens, no stemming and no
stop words, duplicates removed. -/
def tokenize (s : String) : List String :=
  ((words (s.toList.map Char.toLower)).map String.mk).dedup

/-- Modelled from the spec: the tokens of several texts together. -/
def tokenizeAll (texts : List String) : List String :=
  (texts.map tokenize).flatten.dedup

/-- Modelled from the spec: the texts of an address: display name and address. -/
def MailAddress.texts (a : MailAddress) : List String := [a.Name, a.Address]

/-- Modelled from the spec: the token set of a message (section 3, search
index entry): from/to/cc display names and addresses, subject, decoded text
body, and filenames. -/
def messageTokens (pm : ParsedMessage) : List String :=
  tokenizeAll (pm.From.texts ++ (pm.To.map MailAddress.texts).flatten
    ++ (pm.Cc.map MailAddress.texts).flatten ++ [pm.Subject, pm.Text]
    ++ (pm.Attachments.map fun p => p.FileName) ++ (pm.Inline.map fun p => p.FileName))

/-- The narrower token set named in the claim about `Search`: from/to names
and addresses, subject and text body only. -/
def claimTokens (pm : ParsedMessage) : List String :=
  tokenizeAll (pm.From.texts ++ (pm.To.map MailAddress.texts).flatten ++ [pm.Subject, pm.Text])

/-- Modelled from the spec: the key schema of section 4.D, each key kept as
its components: `m/<mailbox>/<id>/raw`, `.../sum`, `.../msg`, `.../read` and
`i/<mailbox>/<token>/<id>`. The separators of the schema are taken to split a
key into its components without ambiguity. A message id is kept as its rank in
the sort order of ids. -/
inductive Key where
  | raw (mailbox : String) (id : Nat)
  | sum (mailbox : String) (id : Nat)
  | msg (mailbox : String) (id : Nat)
  | read (mailbox : String) (id : Nat)
  | idx (mailbox : String) (token : String) (id : Nat)
  deriving DecidableEq, Repr

/-- Modelled from the spec: the values of the key schema of section 4.D. -/
inductive Value where
  | blob (b : Bytes)
  | summary (s : Summary)
  | message (pm : ParsedMessage)
  | flag (b : Bool)
  | empty
  deriving DecidableEq, Repr

namespace Key

/-- Modelled from the spec: the mailbox component of a key. -/
def mailbox : Key → String
  | raw m _ => m
  | sum m _ => m
  | msg m _ => m
  | read m _ => m
  | idx m _ _ => m

/-- Modelled from the spec: the id component of a key. -/
def id : Key → Nat
  | raw _ i => i
  | sum _ i => i
  | msg _ i => i
  | read _ i => i
  | idx _ _ i => i

/-- Modelled from the spec: the keys matched by `m/<mailbox>/*/sum`. -/
def isSumOf (m : String) : Key → Bool
  | sum m1 _ => m1 == m
  | _ => false

/-- Modelled from the spec: the keys under `i/<mailbox>/<token>/`. -/
def isIdxOf (m t : String) : Key → Bool
  | idx m1 t1 _ => m1 == m && t1 == t
  | _ => false

/-- Modelled from the spec: the keys under `m/<mailbox>/` or `i/<mailbox>/`. -/
def under (m : String) (k : Key) : Bool := k.mailbox == m

end Key

/-- Modelled from the spec: the KV Store of section 4.C, the same for the
memory and the file backend: a finite map from keys to values. -/
abbrev KV := List (Key × Value)

namespace KV

/-- Modelled from the spec: the keys present. -/
def keys (kv : KV) : List Key := kv.map Prod.fst

/-- Modelled from the spec: the operation `Get(key)`. -/
def Get (kv : KV) (k : Key) : Option Value :=
  (kv.find? fun e => e.1 == k).map Prod.snd

/-- Modelled from the spec: the operation `Put(batch)`: every key of the
batch gets the value of the batch. -/
def Put (kv : KV) (batch : List (Key × Value)) : KV :=
  batch ++ kv.filter fun e => !(batch.map Prod.fst).contains e.1

/-- Modelled from the spec: the operation `Delete(batch)`: every key of the batch is removed. -/
def Delete (kv : KV) (batch : List Key) : KV :=
  kv.filter fun e => !batch.contains e.1

/-- Modelled from the spec: the operation `Scan` over the keys a pattern
selects, in no particular order. -/
def Scan (kv : KV) (p : Key → Bool) : KV := kv.filter fun e => p e.1

/-- Modelled from the spec: the operation `Count` of the keys a pattern selects. -/
def Count (kv : KV) (p : Key → Bool) : Nat := (kv.Scan p).length

end KV

/-- Modelled from the spec: the error kinds of section 7. -/
inductive StoreError where
  | ErrNotFound
  | ErrInvalidMailbox
  | ErrInvalidQuery
  | ErrClosed
  | ErrCanceled
  | ErrBackend
  deriving DecidableEq, Repr

/-- Modelled from the spec: the events of the Notifier (section 4.F). -/
inductive Event where
  | Inserted (mailbox : String) (summary : Summary)
  | Deleted (mailbox : String) (id : Nat)
  | Truncated (mailbox : String)
  | Read (mailbox : String) (id : Nat)
  | Unread (mailbox : String) (id : Nat)
  deriving DecidableEq, Repr

/-- Modelled from the spec: the two backends of section 4.C. -/
inductive Backend where
  | memory
  | file (dataDir : String)
  deriving DecidableEq, Repr

/-- Modelled from the spec: the state of the store: the key-value contents, the id generator (ids
below `nextID` may be in use), whether `Close` was called, the events
published so far, the backend and the `MaxMessages` setting. -/
structure DB where
  kv : KV := []
  nextID : Nat := 0
  closed : Bool := false
  events : List Event := []
  backend : Backend := Backend.memory
  maxMessages : Nat := 0
  deriving DecidableEq, Repr

/-- Modelled from the spec: the result of a store operation: an error and no change, or a value and
the next state. -/
abbrev Result (α : Type) := Except StoreError (α × DB)

/-- Modelled from the spec: the state after an operation, which is the old state when it failed. -/
def Result.state {α : Type} (r : Result α) (s : DB) : DB :=
  match r with
  | Except.ok (_, s1) => s1
  | Except.error _ => s

/-- Modelled from the spec: the constant `DefaultMailbox`. -/
def DefaultMailbox : String := "INBOX"

/-- Modelled from the spec: the function `InitDB`, as `setup` of the tests uses it: an empty store on the backend
that `config.DataDir` selects, with `config.MaxMessages`. -/
def InitDB (cfg : config.Config) : DB :=
  { backend := if cfg.DataDir = "" then Backend.memory else Backend.file cfg.DataDir,
    maxMessages := cfg.MaxMessages.toNat }

/-- Modelled from the spec: a mailbox name is printable ASCII without
whitespace, at most 64 bytes (section 3). -/
def validMailbox (name : String) : Bool :=
  decide (name.length ≤ 64) &&
    name.toList.all fun c => decide (33 ≤ c.toNat) && decide (c.toNat ≤ 126)

/-- Modelled from the spec: the summary written for a message, with the first
200 characters of the text body as snippet and the read flag cleared. -/
def mkSummary (id : Nat) (pm : ParsedMessage) (size : Nat) : Summary :=
  { ID := id, From := pm.From, To := pm.To, Subject := pm.Subject,
    Date := pm.Date.getD 0, Size := size, Read := false,
    Snippet := String.mk (pm.Text.toList.take 200) }

/-- Modelled from the spec: the batch `Store` writes for one message: the four keys of the message and
one index entry for each token. -/
def storeBatch (mailbox : String) (id : Nat) (bytes : Bytes) (pm : ParsedMessage) :
    List (Key × Value) :=
  [(Key.raw mailbox id, Value.blob bytes),
   (Key.sum mailbox id, Value.summary (mkSummary id pm bytes.length)),
   (Key.msg mailbox id, Value.message pm),
   (Key.read mailbox id, Value.flag false)]
  ++ (messageTokens pm).map fun t => (Key.idx mailbox t id, Value.empty)

/-- Modelled from the spec: `Store(mailbox, bytes)` of sections 4.D and 4.G.
`now` is the clock reading: the new id is not below any id handed out before,
and it is the date of a message that carries none. -/
def Store (P : Parser) (now : Nat) (mailbox : String) (bytes : Bytes) (s : DB) : Result Nat :=
  if s.closed then Except.error StoreError.ErrClosed
  else if !validMailbox mailbox then Except.error StoreError.ErrInvalidMailbox
  else
    let parsed := P.parse bytes
    let pm := { parsed with Date := some (parsed.Date.getD now) }
    let id := max s.nextID now
    Except.ok (id,
      { s with
        kv := s.kv.Put (storeBatch mailbox id bytes pm),
        nextID := id + 1,
        events := s.events ++ [Event.Inserted mailbox (mkSummary id pm bytes.length)] })

/-- Modelled from the spec: `Count(mailbox)`, the count of
`m/<mailbox>/*/sum` keys. -/
def Count (mailbox : String) (s : DB) : Except StoreError Nat :=
  if s.closed then Except.error StoreError.ErrClosed
  else Except.ok (s.kv.Count (Key.isSumOf mailbox))

/-- Modelled from the spec: `DeleteAllMessages(mailbox)`, which deletes every
key under `m/<mailbox>/` and `i/<mailbox>/` and publishes `Truncated`. -/
def DeleteAllMessages (mailbox : String) (s : DB) : Result Unit :=
  if s.closed then Except.error StoreError.ErrClosed
  else
    Except.ok ((),
      { s with
        kv := s.kv.Delete ((s.kv.Scan (Key.under mailbox)).keys),
        events := s.events ++ [Event.Truncated mailbox] })

/-- Modelled from the spec: the keys `DeleteMessage` removes for a message
with the given token set. -/
def messageKeys (mailbox : String) (id : Nat) (tokens : List String) : List Key :=
  [Key.raw mailbox id, Key.sum mailbox id, Key.msg mailbox id, Key.read mailbox id]
  ++ tokens.map fun t => Key.idx mailbox t id

/-- Modelled from the spec: `DeleteMessage(mailbox, id)`, a batch delete of the
keys of the message and of every index entry of its token set, publishing
`Deleted`; `ErrNotFound` when the id does not exist. -/
def DeleteMessage (mailbox : String) (id : Nat) (s : DB) : Result Unit :=
  if s.closed then Except.error StoreError.ErrClosed
  else
    match s.kv.Get (Key.msg mailbox id) with
    | some (Value.message pm) =>
        Except.ok ((),
          { s with
            kv := s.kv.Delete (messageKeys mailbox id (messageTokens pm)),
            events := s.events ++ [Event.Deleted mailbox id] })
    | _ => Except.error StoreError.ErrNotFound

/-- Modelled from the spec: `GetMessage(mailbox, id)`, a point get on `/msg`
that marks the message read: `/read` goes from 0 to 1, only while `/sum` still
exists, and `Read` is published. -/
def GetMessage (mailbox : String) (id : Nat) (s : DB) : Result ParsedMessage :=
  if s.closed then Except.error StoreError.ErrClosed
  else
    match s.kv.Get (Key.msg mailbox id) with
    | some (Value.message pm) =>
        if s.kv.Get (Key.read mailbox id) = some (Value.flag false)
            ∧ (s.kv.Get (Key.sum mailbox id)).isSome then
          Except.ok (pm,
            { s with
              kv := s.kv.Put [(Key.read mailbox id, Value.flag true)],
              events := s.events ++ [Event.Read mailbox id] })
        else Except.ok (pm, s)
    | _ => Except.error StoreError.ErrNotFound

/-- Modelled from the spec: `GetSource(mailbox, id)`, the raw blob. -/
def GetSource (mailbox : String) (id : Nat) (s : DB) : Except StoreError Bytes :=
  if s.closed then Except.error StoreError.ErrClosed
  else
    match s.kv.Get (Key.raw mailbox id) with
    | some (Value.blob b) => Except.ok b
    | _ => Except.error StoreError.ErrNotFound

/-- Modelled from the spec: `MarkUnread(mailbox, id)`, which sets `/read` to 0
and publishes `Unread`; `ErrNotFound` when the id does not exist. -/
def MarkUnread (mailbox : String) (id : Nat) (s : DB) : Result Unit :=
  if s.closed then Except.error StoreError.ErrClosed
  else if (s.kv.Get (Key.sum mailbox id)).isSome then
    Except.ok ((),
      { s with
        kv := s.kv.Put [(Key.read mailbox id, Value.flag false)],
        events := s.events ++ [Event.Unread mailbox id] })
  else Except.error StoreError.ErrNotFound

/-- Modelled from the spec: the summary of a message as list and search responses show it: the record
under `/sum` with the read state under `/read`. -/
def fetchSummary (kv : KV) (mailbox : String) (id : Nat) : Option Summary :=
  match kv.Get (Key.sum mailbox id) with
  | some (Value.summary sm) =>
      some { sm with Read := kv.Get (Key.read mailbox id) == some (Value.flag true) }
  | _ => none

/-- Modelled from the spec: the ids under `i/<mailbox>/<token>/`. -/
def indexIDs (kv : KV) (mailbox token : String) : List Nat :=
  ((kv.Scan (Key.isIdxOf mailbox token)).keys.map Key.id).dedup

/-- Modelled from the spec: newest first: ids in descending order. -/
def sortDesc (ids : List Nat) : List Nat := ids.insertionSort (· ≥ ·)

/-- Modelled from the spec: `Search(mailbox, query, start, limit)`. The query
is tokenized; the id sets of the tokens are intersected; the ids are sorted
newest first, cut to the page, and their summaries fetched, an id without a
summary being skipped. A query without tokens gives the empty result. -/
def Search (mailbox query : String) (start limit : Nat) (s : DB) :
    Except StoreError (List Summary) :=
  if s.closed then Except.error StoreError.ErrClosed
  else
    match tokenize query with
    | [] => Except.ok []
    | t :: ts =>
        let ids := (indexIDs s.kv mailbox t).filter fun id =>
          ts.all fun t1 => (indexIDs s.kv mailbox t1).contains id
        let page := ((sortDesc ids).drop start).take limit
        Except.ok (page.filterMap (fetchSummary s.kv mailbox))

/-- Modelled from the spec: the ids of the messages of a mailbox, from its `/sum` keys. -/
def mailboxIDs (kv : KV) (mailbox : String) : List Nat :=
  (kv.Scan (Key.isSumOf mailbox)).keys.map Key.id

/-- Modelled from the spec: `List(mailbox, start, limit)`, newest first, the
limit capped at 1000. -/
def ListMessages (mailbox : String) (start limit : Nat) (s : DB) :
    Except StoreError (List Summary) :=
  if s.closed then Except.error StoreError.ErrClosed
  else
    Except.ok ((((sortDesc (mailboxIDs s.kv mailbox)).drop start).take (min limit 1000)).filterMap
      (fetchSummary s.kv mailbox))

/-- Modelled from the spec: the mailboxes present in the store. -/
def mailboxes (kv : KV) : List String :=
  ((kv.Scan fun k => match k with
    | Key.sum _ _ => true
    | _ => false).keys.map Key.mailbox).dedup

/-- Modelled from the spec: the pruner on one mailbox: while it holds more than `MaxMessages`
messages, the oldest ids in excess are deleted with `DeleteMessage`. -/
def pruneMailbox (s : DB) (mailbox : String) : DB :=
  let count := s.kv.Count (Key.isSumOf mailbox)
  if s.maxMessages < count then
    let oldest := ((mailboxIDs s.kv mailbox).insertionSort (· ≤ ·)).take
      (count - s.maxMessages)
    oldest.foldl (fun s1 id => (DeleteMessage mailbox id s1).state s1) s
  else s

/-- Modelled from the spec: one tick of the Pruner (section 4.E);
`MaxMessages = 0` disables it. -/
def Prune (s : DB) : DB :=
  if s.maxMessages = 0 ∨ s.closed then s
  else (mailboxes s.kv).foldl pruneMailbox s

/-- Modelled from the spec: `Close()`; later calls return `ErrClosed`. -/
def Close (s : DB) : DB := { s with closed := true }

/-- The operations that change the store. -/
inductive Op where
  | store (now : Nat) (mailbox : String) (bytes : Bytes)
  | getMessage (mailbox : String) (id : Nat)
  | markUnread (mailbox : String) (id : Nat)
  | deleteMessage (mailbox : String) (id : Nat)
  | deleteAll (mailbox : String)
  | prune
  | close
  deriving DecidableEq, Repr

/-- The state after one operation; a failed operation changes nothing. -/
def step (P : Parser) (s : DB) : Op → DB
  | Op.store now mailbox bytes => (Store P now mailbox bytes s).state s
  | Op.getMessage mailbox id => (GetMessage mailbox id s).state s
  | Op.markUnread mailbox id => (MarkUnread mailbox id s).state s
  | Op.deleteMessage mailbox id => (DeleteMessage mailbox id s).state s
  | Op.deleteAll mailbox => (DeleteAllMessages mailbox s).state s
  | Op.prune => Prune s
  | Op.close => Close s

/-- The state after a sequence of operations. -/
def run (P : Parser) (s : DB) (ops : List Op) : DB := ops.foldl (step P) s

/-- Whether an operation succeeds in a state (the pruner and `Close` report
nothing). -/
def succeeds (P : Parser) (s : DB) : Op → Bool
  | Op.store now mailbox bytes => (Store P now mailbox bytes s).isOk
  | Op.getMessage mailbox id => (GetMessage mailbox id s).isOk
  | Op.markUnread mailbox id => (MarkUnread mailbox id s).isOk
  | Op.deleteMessage mailbox id => (DeleteMessage mailbox id s).isOk
  | Op.deleteAll mailbox => (DeleteAllMessages mailbox s).isOk
  | Op.prune => true
  | Op.close => true

/-- The states the store can be in: what `InitDB` gives, and what any
operation makes of such a state. -/
inductive Reachable (P : Parser) : DB → Prop where
  | init (cfg : config.Config) : Reachable P (InitDB cfg)
  | next (s : DB) (op : Op) : Reachable P s → Reachable P (step P s op)

/-- A message is stored whole under a mailbox and id: raw blob, parsed
message, the summary made from them, a read flag, and exactly the index entries
of its token set. -/
def Whole (kv : KV) (m : String) (id : Nat) : Prop :=
  ∃ pm bytes b,
    (Key.raw m id, Value.blob bytes) ∈ kv ∧
    (Key.msg m id, Value.message pm) ∈ kv ∧
    (Key.sum m id, Value.summary (mkSummary id pm bytes.length)) ∈ kv ∧
    (Key.read m id, Value.flag b) ∈ kv ∧
    ∀ t, Key.idx m t id ∈ kv.keys ↔ t ∈ messageTokens pm

/-- No key of a mailbox and id exists. -/
def Absent (kv : KV) (m : String) (id : Nat) : Prop :=
  ∀ k ∈ kv.keys, ¬ (k.mailbox = m ∧ k.id = id)

/-- The consistency of the stored keys (invariant 1 of section 3, with the
properties of ids): keys are unique, every id in use is below `nextID`, and
for every mailbox and id the message is stored whole or not at all. -/
def Inv (s : DB) : Prop :=
  s.kv.keys.Nodup ∧
  (∀ k ∈ s.kv.keys, k.id < s.nextID) ∧
  ∀ m id, Whole s.kv m id ∨ Absent s.kv m id

/-- The stored messages of a mailbox: the ids and parsed messages under its
`/msg` keys. -/
def storedMessages (kv : KV) (mailbox : String) : List (Nat × ParsedMessage) :=
  kv.filterMap fun e =>
    match e with
    | (Key.msg m id, Value.message pm) => if m = mailbox then some (id, pm) else none
    | _ => none

/-- The ids of the stored messages of a mailbox whose token set, as `tokensOf`
gives it, contains every token of the query. -/
def matchingIDs (tokensOf : ParsedMessage → List String) (kv : KV) (mailbox query : String) :
    List Nat :=
  (((storedMessages kv mailbox).filter fun x =>
    (tokenize query).all fun t => (tokensOf x.2).contains t).map Prod.fst).dedup

/-- The result the claim about `Search` describes: the summaries of the
matching stored messages, newest first, cut to `limit` entries. -/
def claimedSearch (tokensOf : ParsedMessage → List String) (s : DB) (mailbox query : String)
    (limit : Nat) : List Summary :=
  ((sortDesc (matchingIDs tokensOf s.kv mailbox query)).take limit).filterMap
    (fetchSummary s.kv mailbox)

/-- Whether an operation leaves the message count of a mailbox to `Store` and
`DeleteMessage`: everything but `DeleteAllMessages` on that mailbox and
`Close`. -/
def keepsMailbox (mailbox : String) : Op → Bool
  | Op.deleteAll m => m != mailbox
  | Op.close => false
  | _ => true

/-- The number of successful `Store` calls into a mailbox along a run. -/
def storesInto (P : Parser) (mailbox : String) : DB → List Op → Nat
  | _, [] => 0
  | s, op :: ops =>
      (match op with
        | Op.store _ m _ => if m = mailbox ∧ succeeds P s op = true then 1 else 0
        | _ => 0) + storesInto P mailbox (step P s op) ops

/-- The number of successful `DeleteMessage` calls on a mailbox along a run. -/
def deletesFrom (P : Parser) (mailbox : String) : DB → List Op → Nat
  | _, [] => 0
  | s, op :: ops =>
      (match op with
        | Op.deleteMessage m _ => if m = mailbox ∧ succeeds P s op = true then 1 else 0
        | _ => 0) + deletesFrom P mailbox (step P s op) ops

/-- A parser for examples: every blob is one message from Alice to Bob with
Carol in copy; the first byte is put into the subject. -/
def sampleParser : Parser where
  parse := fun b =>
    { From := { Name := "Alice A", Address := "alice@example.com" },
      To := [{ Name := "Bob B", Address := "bob@example.com" }],
      Cc := [{ Name := "Carol C", Address := "carol@example.com" }],
      Subject := "Subject line " ++ toString (b.headD 0).toNat ++ " end",
      Text := "This is the email body" }

/-- An empty memory store with pruning disabled, as `setup` of the tests
makes it. -/
def emptyDB : DB := InitDB { MaxMessages := 0 }

/-- The store after one message went into `INBOX`. -/
def oneStored : DB := run sampleParser emptyDB [Op.store 10 DefaultMailbox [1]]

/-- The store after three messages went into `INBOX`. -/
def threeStored : DB :=
  run sampleParser emptyDB
    [Op.store 10 DefaultMailbox [1], Op.store 11 DefaultMailbox [2], Op.store 12 DefaultMailbox [2]]

/-- The store after `DeleteAllMessages` on `INBOX` with three messages in it. -/
def truncated : DB := (DeleteAllMessages DefaultMailbox threeStored).state threeStored

/-- A run of stores, deletes, a read and a pruner tick on `INBOX`, with
identical blobs. -/
def sampleRun : List Op :=
  [Op.store 10 DefaultMailbox [1], Op.store 10 DefaultMailbox [1],
   Op.deleteMessage DefaultMailbox 10, Op.deleteMessage DefaultMailbox 10,
   Op.getMessage DefaultMailbox 11, Op.prune, Op.store 3 DefaultMailbox [1]]

end storage

namespace config

theorem returnedError_bind_nil {x : Run Bool} {f : Bool → Run Verdict}
    (h : returnedError (x.bind f) = some none) :
    ∃ b, x = Run.returned b ∧ returnedError (f b) = some none := by
  cases x with
  | returned b => exact ⟨b, rfl, h⟩
  | panicked => simp [Run.bind, returnedError] at h

theorem verifySMTPAuth_nil {env : Env} {c : Config}
    (h : returnedError (verifySMTPAuth env c) = some none) (hauth : c.SMTPAuthFile ≠ "") :
    c.SMTPSSLCert ≠ "" := by
  unfold verifySMTPAuth at h
  rw [if_pos hauth] at h
  obtain ⟨b, -, hb⟩ := returnedError_bind_nil h
  intro hcert
  cases b <;> simp [returnedError, hcert] at hb

theorem verifySMTPSSL_nil {env : Env} {c : Config}
    (h : returnedError (verifySMTPSSL env c) = some none) :
    ¬ (c.SMTPSSLCert ≠ "" ∧ c.SMTPSSLKey = "" ∨ c.SMTPSSLCert = "" ∧ c.SMTPSSLKey ≠ "") ∧
      returnedError (verifySMTPAuth env c) = some none := by
  unfold verifySMTPSSL at h
  split at h
  · simp [returnedError] at h
  · rename_i hpair
    refine ⟨hpair, ?_⟩
    split at h
    · obtain ⟨b, -, hb⟩ := returnedError_bind_nil h
      cases b
      · simp [returnedError] at hb
      · simp only [Bool.not_true, Bool.false_eq_true, if_false] at hb
        obtain ⟨b2, -, hb2⟩ := returnedError_bind_nil hb
        cases b2
        · simp [returnedError] at hb2
        · simpa using hb2
    · exact h

theorem verifyUISSL_nil {env : Env} {c : Config}
    (h : returnedError (verifyUISSL env c) = some none) :
    ¬ (c.UISSLCert ≠ "" ∧ c.UISSLKey = "" ∨ c.UISSLCert = "" ∧ c.UISSLKey ≠ "") ∧
      returnedError (verifySMTPSSL env c) = some none := by
  unfold verifyUISSL at h
  split at h
  · simp [returnedError] at h
  · rename_i hpair
    refine ⟨hpair, ?_⟩
    split at h
    · obtain ⟨b, -, hb⟩ := returnedError_bind_nil h
      cases b
      · simp [returnedError] at hb
      · simp only [Bool.not_true, Bool.false_eq_true, if_false] at hb
        obtain ⟨b2, -, hb2⟩ := returnedError_bind_nil hb
        cases b2
        · simp [returnedError] at hb2
        · simpa using hb2
    · exact h

theorem verifyUIAuth_nil {env : Env} {c : Config}
    (h : returnedError (verifyUIAuth env c) = some none) :
    ∃ c1 : Config, returnedError (verifyUISSL env c1) = some none ∧
      c1.UISSLCert = c.UISSLCert ∧ c1.UISSLKey = c.UISSLKey ∧
      c1.SMTPSSLCert = c.SMTPSSLCert ∧ c1.SMTPSSLKey = c.SMTPSSLKey ∧
      c1.SMTPAuthFile = c.SMTPAuthFile := by
  unfold verifyUIAuth at h
  split at h
  · obtain ⟨b, -, hb⟩ := returnedError_bind_nil h
    cases b
    · simp [returnedError] at hb
    · simp only [Bool.not_true, Bool.false_eq_true, if_false] at hb
      split at hb
      · simp [returnedError] at hb
      · rename_i a _
        exact ⟨{ c with UIAuth := some a }, hb, rfl, rfl, rfl, rfl, rfl⟩
  · exact ⟨c, h, rfl, rfl, rfl, rfl, rfl⟩

theorem VerifyConfig_nil {env : Env} {c : Config}
    (h : returnedError (VerifyConfig env c) = some none) :
    reMatchString c.SMTPListen = true ∧ reMatchString c.HTTPListen = true ∧
      returnedError (verifyUIAuth env c) = some none := by
  unfold VerifyConfig at h
  split at h
  · simp [returnedError] at h
  · split at h
    · simp [returnedError] at h
    · rename_i h1 h2
      simp only [Bool.not_eq_true, Bool.not_eq_false, Bool.not_eq_eq_eq_not, Bool.not_true,
        Bool.not_false] at h1 h2
      simp_all

/-- Claim C6. Whenever `VerifyConfig` returns nil for a configuration whose
`SMTPAuthFile` is set, both `SMTPSSLCert` and `SMTPSSLKey` are set: SMTP
authentication is never accepted without an SMTP certificate and key. -/
theorem smtp_auth_requires_encryption (env : Env) (c : Config)
    (hnil : returnedError (VerifyConfig env c) = some none) (hauth : c.SMTPAuthFile ≠ "") :
    c.SMTPSSLCert ≠ "" ∧ c.SMTPSSLKey ≠ "" := by
  obtain ⟨-, -, h1⟩ := VerifyConfig_nil hnil
  obtain ⟨c1, h2, -, -, hcert, hkey, hfile⟩ := verifyUIAuth_nil h1
  obtain ⟨-, h3⟩ := verifyUISSL_nil h2
  obtain ⟨hpair, h4⟩ := verifySMTPSSL_nil h3
  have hc : c1.SMTPSSLCert ≠ "" := verifySMTPAuth_nil h4 (hfile ▸ hauth)
  rw [hcert, hkey] at hpair
  rw [hcert] at hc
  refine ⟨hc, fun hk => hpair (Or.inl ⟨hc, hk⟩)⟩

/-- Witness for claim C6: a configuration with SMTP authentication and both
certificate files is accepted, and the theorem applies to it. -/
theorem smtp_auth_requires_encryption_witness :
    returnedError (VerifyConfig envAllFiles cfgSMTPAuth) = some none ∧
      cfgSMTPAuth.SMTPAuthFile ≠ "" ∧
      cfgSMTPAuth.SMTPSSLCert ≠ "" ∧ cfgSMTPAuth.SMTPSSLKey ≠ "" :=
  ⟨by decide, by decide,
    smtp_auth_requires_encryption envAllFiles cfgSMTPAuth (by decide) (by decide)⟩

end config

namespace config

/-- However the file system behaves, `VerifyConfig` never returns nil when
exactly one of `UISSLCert`, `UISSLKey` or exactly one of `SMTPSSLCert`,
`SMTPSSLKey` is set. -/
theorem cert_key_pair_never_nil (env : Env) (c : Config)
    (hpair : (c.UISSLCert ≠ "" ∧ c.UISSLKey = "" ∨ c.UISSLCert = "" ∧ c.UISSLKey ≠ "") ∨
      (c.SMTPSSLCert ≠ "" ∧ c.SMTPSSLKey = "" ∨ c.SMTPSSLCert = "" ∧ c.SMTPSSLKey ≠ "")) :
    returnedError (VerifyConfig env c) ≠ some none := by
  intro hnil
  obtain ⟨-, -, h1⟩ := VerifyConfig_nil hnil
  obtain ⟨c1, h2, hucert, hukey, hcert, hkey, -⟩ := verifyUIAuth_nil h1
  obtain ⟨hui, h3⟩ := verifyUISSL_nil h2
  obtain ⟨hsmtp, -⟩ := verifySMTPSSL_nil h3
  rw [hucert, hukey] at hui
  rw [hcert, hkey] at hsmtp
  rcases hpair with h | h
  · exact hui h
  · exact hsmtp h

theorem isFile_returns {env : Env} (hstat : ∀ p, env.Stat p ≠ StatResult.errOther)
    (path : String) : ∃ b, isFile env path = Run.returned b := by
  unfold isFile
  cases h : env.Stat path with
  | info r => exact ⟨r, rfl⟩
  | errNotExist => exact ⟨false, rfl⟩
  | errOther => exact absurd h (hstat path)

theorem verifySMTPAuth_returns {env : Env} (hstat : ∀ p, env.Stat p ≠ StatResult.errOther)
    (c : Config) : returnedError (verifySMTPAuth env c) ≠ none := by
  unfold verifySMTPAuth
  split
  · obtain ⟨b, hb⟩ := isFile_returns hstat c.SMTPAuthFile
    rw [hb]
    cases b
    · simp [Run.bind, returnedError]
    · simp only [Run.bind, Bool.not_true, Bool.false_eq_true, if_false]
      split
      · simp [returnedError]
      · split <;> simp [returnedError]
  · simp [returnedError]

theorem verifySMTPSSL_returns {env : Env} (hstat : ∀ p, env.Stat p ≠ StatResult.errOther)
    (c : Config) : returnedError (verifySMTPSSL env c) ≠ none := by
  unfold verifySMTPSSL
  split
  · simp [returnedError]
  · split
    · obtain ⟨b, hb⟩ := isFile_returns hstat c.SMTPSSLCert
      obtain ⟨b2, hb2⟩ := isFile_returns hstat c.SMTPSSLKey
      rw [hb, hb2]
      cases b
      · simp [Run.bind, returnedError]
      · cases b2
        · simp [Run.bind, returnedError]
        · simpa [Run.bind] using verifySMTPAuth_returns hstat c
    · exact verifySMTPAuth_returns hstat c

theorem verifyUISSL_returns {env : Env} (hstat : ∀ p, env.Stat p ≠ StatResult.errOther)
    (c : Config) : returnedError (verifyUISSL env c) ≠ none := by
  unfold verifyUISSL
  split
  · simp [returnedError]
  · split
    · obtain ⟨b, hb⟩ := isFile_returns hstat c.UISSLCert
      obtain ⟨b2, hb2⟩ := isFile_returns hstat c.UISSLKey
      rw [hb, hb2]
      cases b
      · simp [Run.bind, returnedError]
      · cases b2
        · simp [Run.bind, returnedError]
        · simpa [Run.bind] using verifySMTPSSL_returns hstat c
    · exact verifySMTPSSL_returns hstat c

theorem verifyUIAuth_returns {env : Env} (hstat : ∀ p, env.Stat p ≠ StatResult.errOther)
    (c : Config) : returnedError (verifyUIAuth env c) ≠ none := by
  unfold verifyUIAuth
  split
  · obtain ⟨b, hb⟩ := isFile_returns hstat c.UIAuthFile
    rw [hb]
    cases b
    · simp [Run.bind, returnedError]
    · simp only [Run.bind, Bool.not_true, Bool.false_eq_true, if_false]
      split
      · simp [returnedError]
      · exact verifyUISSL_returns hstat _
  · exact verifyUISSL_returns hstat c

/-- When `os.Stat` only ever succeeds or reports a missing file,
`VerifyConfig` returns. -/
theorem VerifyConfig_returns {env : Env} (hstat : ∀ p, env.Stat p ≠ StatResult.errOther)
    (c : Config) : returnedError (VerifyConfig env c) ≠ none := by
  unfold VerifyConfig
  split
  · simp [returnedError]
  · split
    · simp [returnedError]
    · exact verifyUIAuth_returns hstat c

/-- When `os.Stat` only ever succeeds or reports a missing file, a
configuration with exactly one member of a certificate and key pair makes
`VerifyConfig` return an error. -/
theorem cert_key_pair_error (env : Env) (c : Config)
    (hstat : ∀ p, env.Stat p ≠ StatResult.errOther)
    (hpair : (c.UISSLCert ≠ "" ∧ c.UISSLKey = "" ∨ c.UISSLCert = "" ∧ c.UISSLKey ≠ "") ∨
      (c.SMTPSSLCert ≠ "" ∧ c.SMTPSSLKey = "" ∨ c.SMTPSSLCert = "" ∧ c.SMTPSSLKey ≠ "")) :
    ∃ e, returnedError (VerifyConfig env c) = some (some e) := by
  have h1 := VerifyConfig_returns hstat c
  have h2 := cert_key_pair_never_nil env c hpair
  cases h : returnedError (VerifyConfig env c) with
  | none => exact absurd h h1
  | some v =>
      cases v with
      | none => exact absurd h h2
      | some e => exact ⟨e, rfl⟩

theorem append_ne_of_head {a b : String} (x : String) {ca cb : Char} {ta tb : List Char}
    (ha : a.data = ca :: ta) (hb : b.data = cb :: tb) (hne : ca ≠ cb) : a ++ x ≠ b := by
  intro h
  have h2 := congrArg String.data h
  rw [String.data_append, ha, hb] at h2
  simp only [List.cons_append, List.cons.injEq] at h2
  exact hne h2.1

/-- The message of the UI pair check. -/
theorem uiPairMessage_data :
    ("you must provide both a UI SSL certificate and a key" : String).data =
      'y' :: ("ou must provide both a UI SSL certificate and a key" : String).data := by
  decide

theorem verifySMTPAuth_not_ui_pair_error (env : Env) (c : Config) :
    returnedError (verifySMTPAuth env c) ≠
      some (some (Error.New "you must provide both a UI SSL certificate and a key")) := by
  have hmsg : ∀ x : String, "SMTP password file not found: " ++ x ≠
      "you must provide both a UI SSL certificate and a key" := fun x =>
    append_ne_of_head x (show _ = 'S' :: ("MTP password file not found: " : String).data by decide)
      uiPairMessage_data (by decide)
  unfold verifySMTPAuth
  split
  · cases isFile env c.SMTPAuthFile with
    | panicked => simp [Run.bind, returnedError]
    | returned b =>
        cases b
        · simpa [Run.bind, returnedError] using hmsg _
        · simp only [Run.bind, Bool.not_true, Bool.false_eq_true, if_false]
          split
          · simp only [returnedError]; decide
          · split <;> simp [returnedError]
  · simp [returnedError]

theorem verifySMTPSSL_not_ui_pair_error (env : Env) (c : Config) :
    returnedError (verifySMTPSSL env c) ≠
      some (some (Error.New "you must provide both a UI SSL certificate and a key")) := by
  have hmsg1 : ∀ x : String, "SMTP SSL certificate not found: " ++ x ≠
      "you must provide both a UI SSL certificate and a key" := fun x =>
    append_ne_of_head x (show _ = 'S' :: ("MTP SSL certificate not found: " : String).data by decide)
      uiPairMessage_data (by decide)
  have hmsg2 : ∀ x : String, "SMTP SSL key not found: " ++ x ≠
      "you must provide both a UI SSL certificate and a key" := fun x =>
    append_ne_of_head x (show _ = 'S' :: ("MTP SSL key not found: " : String).data by decide)
      uiPairMessage_data (by decide)
  unfold verifySMTPSSL
  split
  · simp only [returnedError]; decide
  · split
    · cases isFile env c.SMTPSSLCert with
      | panicked => simp [Run.bind, returnedError]
      | returned b =>
          cases b
          · simpa [Run.bind, returnedError] using hmsg1 _
          · simp only [Run.bind, Bool.not_true, Bool.false_eq_true, if_false]
            cases isFile env c.SMTPSSLKey with
            | panicked => simp [returnedError]
            | returned b2 =>
                cases b2
                · simpa [returnedError] using hmsg2 _
                · simpa using verifySMTPAuth_not_ui_pair_error env c
    · exact verifySMTPAuth_not_ui_pair_error env c

/-- With valid bind addresses and no UI password file, `VerifyConfig` returns
the error "you must provide both a UI SSL certificate and a key" exactly when
one of `UISSLCert`, `UISSLKey` is set and the other is not. -/
theorem ui_pair_error_iff (env : Env) (c : Config)
    (hsmtp : reMatchString c.SMTPListen = true) (hhttp : reMatchString c.HTTPListen = true)
    (hauth : c.UIAuthFile = "") :
    returnedError (VerifyConfig env c) =
        some (some (Error.New "you must provide both a UI SSL certificate and a key")) ↔
      (c.UISSLCert ≠ "" ∧ c.UISSLKey = "" ∨ c.UISSLCert = "" ∧ c.UISSLKey ≠ "") := by
  have hmsg1 : ∀ x : String, "SSL certificate not found: " ++ x ≠
      "you must provide both a UI SSL certificate and a key" := fun x =>
    append_ne_of_head x (show _ = 'S' :: ("SL certificate not found: " : String).data by decide)
      uiPairMessage_data (by decide)
  have hmsg2 : ∀ x : String, "SSL key not found: " ++ x ≠
      "you must provide both a UI SSL certificate and a key" := fun x =>
    append_ne_of_head x (show _ = 'S' :: ("SL key not found: " : String).data by decide)
      uiPairMessage_data (by decide)
  have hrun : VerifyConfig env c = verifyUISSL env c := by
    unfold VerifyConfig verifyUIAuth
    simp [hsmtp, hhttp, hauth]
  rw [hrun]
  unfold verifyUISSL
  constructor
  · intro h
    by_contra hpair
    rw [if_neg hpair] at h
    split at h
    · cases hc : isFile env c.UISSLCert with
      | panicked => simp [hc, Run.bind, returnedError] at h
      | returned b =>
          rw [hc] at h
          cases b
          · simp only [Run.bind, Bool.not_false, if_true, returnedError, Option.some.injEq,
              Error.New.injEq] at h
            exact hmsg1 _ h
          · simp only [Run.bind, Bool.not_true, Bool.false_eq_true, if_false] at h
            cases hk : isFile env c.UISSLKey with
            | panicked => simp [hk, returnedError] at h
            | returned b2 =>
                rw [hk] at h
                cases b2
                · simp only [Bool.not_false, if_true, returnedError, Option.some.injEq,
                    Error.New.injEq] at h
                  exact hmsg2 _ h
                · exact verifySMTPSSL_not_ui_pair_error env c (by simpa using h)
    · exact verifySMTPSSL_not_ui_pair_error env c h
  · intro hpair
    rw [if_pos hpair]
    rfl

/-- Claim C7, at the input where the code departs from it: only `UISSLCert`
of the UI pair is set, `os.Stat` fails on the password file path with an error
other than "does not exist", and `VerifyConfig` panics inside `isFile` instead
of returning an error. -/
theorem VerifyConfig_panics_in_isFile :
    (cfgCertOnly.UISSLCert ≠ "" ∧ cfgCertOnly.UISSLKey = "") ∧
      isFile envNotDir cfgCertOnly.UIAuthFile = Run.panicked ∧
      returnedError (VerifyConfig envNotDir cfgCertOnly) = none ∧
      ¬ ∃ e, returnedError (VerifyConfig envNotDir cfgCertOnly) = some (some e) := by
  refine ⟨by decide, rfl, by decide, ?_⟩
  rintro ⟨e, he⟩
  have h : returnedError (VerifyConfig envNotDir cfgCertOnly) = none := by decide
  rw [h] at he
  cases he

end config

namespace config

/-- A nil return of `VerifyConfig` leaves `UIAuth` loaded whenever
`UIAuthFile` is set, which is the state `middleWareFunc` runs in. -/
theorem VerifyConfig_loads_UIAuth (env : Env) (c c1 : Config)
    (h : VerifyConfig env c = Run.returned (none, c1)) (hfile : c1.UIAuthFile ≠ "") :
    c1.UIAuth ≠ none := by
  have key : ∀ (c0 : Config), (c0.UIAuthFile ≠ "" → c0.UIAuth ≠ none) →
      ∀ r, (r = verifyUISSL env c0 ∨ r = verifySMTPSSL env c0 ∨ r = verifySMTPAuth env c0) →
      r = Run.returned (none, c1) → c1.UIAuthFile ≠ "" → c1.UIAuth ≠ none := by
    intro c0 hc0 r hr hret hf
    have hauthStage : verifySMTPAuth env c0 = Run.returned (none, c1) → c1.UIAuth ≠ none := by
      intro h4
      unfold verifySMTPAuth at h4
      split at h4
      · cases hb : isFile env c0.SMTPAuthFile with
        | panicked => simp [hb, Run.bind] at h4
        | returned b =>
            rw [hb] at h4
            cases b
            · simp [Run.bind] at h4
            · simp only [Run.bind, Bool.not_true, Bool.false_eq_true, if_false] at h4
              split at h4
              · simp at h4
              · split at h4
                · simp at h4
                · simp only [Run.returned.injEq, Prod.mk.injEq, true_and] at h4
                  subst h4
                  exact hc0 hf
      · simp only [Run.returned.injEq, Prod.mk.injEq, true_and] at h4
        subst h4
        exact hc0 hf
    have hsslStage : verifySMTPSSL env c0 = Run.returned (none, c1) → c1.UIAuth ≠ none := by
      intro h3
      unfold verifySMTPSSL at h3
      split at h3
      · simp at h3
      · split at h3
        · cases hb : isFile env c0.SMTPSSLCert with
          | panicked => simp [hb, Run.bind] at h3
          | returned b =>
              rw [hb] at h3
              cases b
              · simp [Run.bind] at h3
              · simp only [Run.bind, Bool.not_true, Bool.false_eq_true, if_false] at h3
                cases hk : isFile env c0.SMTPSSLKey with
                | panicked => simp [hk] at h3
                | returned b2 =>
                    rw [hk] at h3
                    cases b2
                    · simp at h3
                    · exact hauthStage (by simpa using h3)
        · exact hauthStage h3
    rcases hr with hr | hr | hr
    · subst hr
      unfold verifyUISSL at hret
      split at hret
      · simp at hret
      · split at hret
        · cases hb : isFile env c0.UISSLCert with
          | panicked => simp [hb, Run.bind] at hret
          | returned b =>
              rw [hb] at hret
              cases b
              · simp [Run.bind] at hret
              · simp only [Run.bind, Bool.not_true, Bool.false_eq_true, if_false] at hret
                cases hk : isFile env c0.UISSLKey with
                | panicked => simp [hk] at hret
                | returned b2 =>
                    rw [hk] at hret
                    cases b2
                    · simp at hret
                    · exact hsslStage (by simpa using hret)
        · exact hsslStage hret
    · subst hr
      exact hsslStage hret
    · subst hr
      exact hauthStage hret
  unfold VerifyConfig at h
  split at h
  · simp at h
  · split at h
    · simp at h
    · unfold verifyUIAuth at h
      split at h
      · cases hb : isFile env c.UIAuthFile with
        | panicked => simp [hb, Run.bind] at h
        | returned b =>
            rw [hb] at h
            cases b
            · simp [Run.bind] at h
            · simp only [Run.bind, Bool.not_true, Bool.false_eq_true, if_false] at h
              split at h
              · simp at h
              · rename_i a _
                exact key { c with UIAuth := some a } (fun _ => by simp) _ (Or.inl rfl) h hfile
      · rename_i hempty
        have hc1 : c1.UIAuthFile = "" → False := hfile
        refine key c (fun hne => absurd (not_not.mp hempty) hne) _ (Or.inl rfl) h hfile

end config

namespace server

theorem Writer.Write_conn (codec : GzipCodec) (w : ResponseWriter) (b : Bytes) :
    Writer.Write codec (Writer.conn w) b = Writer.conn (w.Write b) := by
  simp [Writer.Write]

/-- The response `basicAuthResponse` leaves on a connection nothing was
written to yet: status 401, the `WWW-Authenticate` challenge among the header
fields sent with it, and the fixed body. -/
theorem basicAuthResponse_fresh (codec : GzipCodec) :
    (basicAuthResponse codec (Writer.conn {})).underlying =
      { header := [("Www-Authenticate", "Basic realm=\"Login\"")],
        wrote := some (401, [("Www-Authenticate", "Basic realm=\"Login\"")]),
        body := goBytes "Unauthorised.\n" } := by
  have hk : CanonicalMIMEHeaderKey "WWW-Authenticate" = "Www-Authenticate" := by decide
  simp [basicAuthResponse, Writer.HeaderSet, Writer.WriteHeader, Writer.Write_conn,
    Writer.underlying, ResponseWriter.HeaderSet, ResponseWriter.WriteHeader,
    ResponseWriter.Write, hk, StatusUnauthorized]

theorem serve_counted {σ : Type} (codec : GzipCodec) (fn : HandlerFunc σ) (w : Writer)
    (r : Request) (s : σ) (k : Nat) :
    serve codec (counted fn) w r (s, k) =
      ((serve codec fn w r s).1, ((serve codec fn w r s).2, k + 1)) := by
  unfold serve counted
  split <;> rfl

theorem middleWareFunc_gate {σ : Type} (codec : GzipCodec) (cfg : config.Config)
    (fn : HandlerFunc σ) (w : Writer) (r : Request) (s : σ)
    (hload : cfg.UIAuthFile ≠ "" → cfg.UIAuth ≠ none) :
    (allowed cfg r →
        middleWareFunc codec cfg (counted fn) w r (s, 0) =
          Run.returned ((serve codec fn w r s).1, ((serve codec fn w r s).2, 1))) ∧
      (¬ allowed cfg r →
        middleWareFunc codec cfg (counted fn) w r (s, 0) =
          Run.returned (basicAuthResponse codec w, (s, 0))) := by
  unfold middleWareFunc allowed
  by_cases hfile : cfg.UIAuthFile = ""
  · simp [hfile, serve_counted]
  · have hfile2 : cfg.UIAuthFile ≠ "" := hfile
    rw [if_pos hfile2]
    cases hb : r.basicAuth with
    | none => simp [hfile]
    | some up =>
        obtain ⟨user, pass⟩ := up
        cases ha : cfg.UIAuth with
        | none => exact absurd ha (hload hfile2)
        | some a =>
            cases hm : a.Match user pass
            · simp [hfile, hm]
            · simp only [hm, Bool.not_true, Bool.false_eq_true, if_false, serve_counted]
              refine ⟨fun _ => trivial, fun hna => ?_⟩
              exact absurd (Or.inr ⟨user, pass, a, rfl, rfl, hm⟩) hna

/-- Claim C4, for a configuration whose password file is loaded whenever
`UIAuthFile` is set (the state `VerifyConfig` leaves). For every inner handler
`fn`, request and program state, the handler wrapped by `middleWareFunc`
returns, and `fn` runs (once, as its own invocation count shows) exactly when
`UIAuthFile` is empty or the request carries basic-auth credentials that
`UIAuth.Match` accepts; the writer and program state are then what `fn` made of
them, called on the connection or on a gzip writer that is closed afterwards.
In every other case `fn` does not run, the program state is untouched, and the
response on a fresh connection is status 401 with the header field
`WWW-Authenticate: Basic realm="Login"` and body `Unauthorised.\n`. -/
theorem middleWareFunc_auth_gate {σ : Type} (codec : GzipCodec) (cfg : config.Config)
    (fn : HandlerFunc σ) (r : Request) (s : σ)
    (hload : cfg.UIAuthFile ≠ "" → cfg.UIAuth ≠ none) :
    ∃ w1 s1 n,
      middleWareFunc codec cfg (counted fn) (Writer.conn {}) r (s, 0) =
        Run.returned (w1, (s1, n)) ∧
      (n = 1 ↔ allowed cfg r) ∧
      (allowed cfg r →
        (stringsContains (r.headerGet "Accept-Encoding") "gzip" = false →
          (w1, s1) = fn (Writer.conn {}) r s) ∧
        (stringsContains (r.headerGet "Accept-Encoding") "gzip" = true →
          (w1, s1) =
            (Writer.closeGzip codec
                (fn (Writer.gzip {} ((Writer.conn {}).HeaderSet "Content-Encoding" "gzip"))
                  r s).1,
              (fn (Writer.gzip {} ((Writer.conn {}).HeaderSet "Content-Encoding" "gzip"))
                r s).2))) ∧
      (¬ allowed cfg r →
        n = 0 ∧ s1 = s ∧
        w1.underlying.wrote.map (fun p => p.1) = some StatusUnauthorized ∧
        (w1.underlying.wrote.map fun p => HeaderGet p.2 "WWW-Authenticate") =
          some "Basic realm=\"Login\"" ∧
        w1.underlying.body = goBytes "Unauthorised.\n") := by
  obtain ⟨hyes, hno⟩ := middleWareFunc_gate codec cfg fn (Writer.conn {}) r s hload
  by_cases hal : allowed cfg r
  · refine ⟨_, _, 1, hyes hal, iff_of_true rfl hal, fun _ => ⟨?_, ?_⟩, fun hna => absurd hal hna⟩
    · intro hgz
      simp [serve, hgz]
    · intro hgz
      simp [serve, hgz]
  · refine ⟨_, _, 0, hno hal, iff_of_false (by decide) hal, fun h => absurd h hal, fun _ => ?_⟩
    rw [basicAuthResponse_fresh]
    exact ⟨rfl, rfl, by decide, by decide, rfl⟩

/-- Claim C4 as worded fails: with `UIAuthFile` set but `UIAuth` never loaded,
a request that carries credentials is in none of the cases the claim lets
through, yet the wrapped handler panics in `config.UIAuth.Match` and produces
no 401 response. -/
theorem middleWareFunc_nil_UIAuth_counterexample :
    ¬ allowed cfgAuthNotLoaded reqWrongPassword ∧
      returnedValue (middleWareFunc plainCodec cfgAuthNotLoaded (notFoundHandler plainCodec)
        (Writer.conn {}) reqWrongPassword ()) = none := by
  refine ⟨?_, by decide⟩
  unfold allowed
  simp [cfgAuthNotLoaded]

/-- Witness for claim C4, on both sides of the gate, against a loaded password
file: a request with a wrong password gets the 401 response and the handler
does not run; a request with the right password runs the handler once, whose
404 answer goes out through the gzip writer. -/
theorem middleWareFunc_auth_gate_witness :
    (cfgWithAuth.UIAuthFile ≠ "" → cfgWithAuth.UIAuth ≠ none) ∧
    ¬ allowed cfgWithAuth reqWrongPassword ∧
    allowed cfgWithAuth reqRightPassword ∧
    (returnedValue (middleWareFunc plainCodec cfgWithAuth (counted (notFoundHandler plainCodec))
        (Writer.conn {}) reqWrongPassword ((), 0))).map (fun o =>
          (o.1.underlying.wrote.map fun p => p.1, o.2.2)) = some (some 401, 0) ∧
    (returnedValue (middleWareFunc plainCodec cfgWithAuth (counted (notFoundHandler plainCodec))
        (Writer.conn {}) reqRightPassword ((), 0))).map (fun o =>
          (o.1.underlying.wrote.map fun p => p.1, o.2.2)) = some (some 404, 1) ∧
    (∃ w1 s1 n,
      middleWareFunc plainCodec cfgWithAuth (counted (notFoundHandler plainCodec))
          (Writer.conn {}) reqWrongPassword ((), 0) = Run.returned (w1, (s1, n)) ∧
      (n = 1 ↔ allowed cfgWithAuth reqWrongPassword) ∧
      (allowed cfgWithAuth reqWrongPassword →
        (stringsContains (reqWrongPassword.headerGet "Accept-Encoding") "gzip" = false →
          (w1, s1) = notFoundHandler plainCodec (Writer.conn {}) reqWrongPassword ()) ∧
        (stringsContains (reqWrongPassword.headerGet "Accept-Encoding") "gzip" = true →
          (w1, s1) =
            (Writer.closeGzip plainCodec
                (notFoundHandler plainCodec
                  (Writer.gzip {} ((Writer.conn {}).HeaderSet "Content-Encoding" "gzip"))
                  reqWrongPassword ()).1,
              (notFoundHandler plainCodec
                (Writer.gzip {} ((Writer.conn {}).HeaderSet "Content-Encoding" "gzip"))
                reqWrongPassword ()).2))) ∧
      (¬ allowed cfgWithAuth reqWrongPassword →
        n = 0 ∧ s1 = () ∧
        w1.underlying.wrote.map (fun p => p.1) = some StatusUnauthorized ∧
        (w1.underlying.wrote.map fun p => HeaderGet p.2 "WWW-Authenticate") =
          some "Basic realm=\"Login\"" ∧
        w1.underlying.body = goBytes "Unauthorised.\n")) ∧
    (∃ w1 s1 n,
      middleWareFunc plainCodec cfgWithAuth (counted (notFoundHandler plainCodec))
          (Writer.conn {}) reqRightPassword ((), 0) = Run.returned (w1, (s1, n)) ∧
      (n = 1 ↔ allowed cfgWithAuth reqRightPassword) ∧
      (allowed cfgWithAuth reqRightPassword →
        (stringsContains (reqRightPassword.headerGet "Accept-Encoding") "gzip" = false →
          (w1, s1) = notFoundHandler plainCodec (Writer.conn {}) reqRightPassword ()) ∧
        (stringsContains (reqRightPassword.headerGet "Accept-Encoding") "gzip" = true →
          (w1, s1) =
            (Writer.closeGzip plainCodec
                (notFoundHandler plainCodec
                  (Writer.gzip {} ((Writer.conn {}).HeaderSet "Content-Encoding" "gzip"))
                  reqRightPassword ()).1,
              (notFoundHandler plainCodec
                (Writer.gzip {} ((Writer.conn {}).HeaderSet "Content-Encoding" "gzip"))
                reqRightPassword ()).2))) ∧
      (¬ allowed cfgWithAuth reqRightPassword →
        n = 0 ∧ s1 = () ∧
        w1.underlying.wrote.map (fun p => p.1) = some StatusUnauthorized ∧
        (w1.underlying.wrote.map fun p => HeaderGet p.2 "WWW-Authenticate") =
          some "Basic realm=\"Login\"" ∧
        w1.underlying.body = goBytes "Unauthorised.\n")) :=
  ⟨fun _ => by simp [cfgWithAuth],
    by
      unfold allowed
      simp [cfgWithAuth, reqWrongPassword],
    Or.inr ⟨"admin", "secret", ⟨fun u p => u == "admin" && p == "secret"⟩, rfl, rfl, by decide⟩,
    by decide, by decide,
    middleWareFunc_auth_gate plainCodec cfgWithAuth (notFoundHandler plainCodec)
      reqWrongPassword () (fun _ => by simp [cfgWithAuth]),
    middleWareFunc_auth_gate plainCodec cfgWithAuth (notFoundHandler plainCodec)
      reqRightPassword () (fun _ => by simp [cfgWithAuth])⟩

end server

namespace server

theorem positiveOr_eq (intSize : Nat) (dflt : Int) (s : String) :
    positiveOr intSize dflt s =
      match decimalInteger s with
      | some n => if 0 < n ∧ n < (2 : Int) ^ (intSize - 1) then n else dflt
      | none => dflt := by
  unfold positiveOr Atoi decimalInteger
  simp only []
  generalize hds : (match s.toList with
    | '+' :: rest => rest
    | '-' :: rest => rest
    | _ => s.toList) = ds
  by_cases hsyn : (ds.isEmpty || !ds.all Char.isDigit) = true
  · simp [hsyn]
  · simp only [hsyn, Bool.false_eq_true, if_false]
    have hpow : ((2 ^ (intSize - 1) : Nat) : Int) = (2 : Int) ^ (intSize - 1) := by push_cast; rfl
    by_cases hneg : (s.toList.head? == some '-') = true
    · have hnonpos : ¬ (0 : Int) < - (digitsValue ds : Int) := by omega
      simp only [hneg, Bool.not_true, Bool.false_and, Bool.true_and, if_true, Bool.false_eq_true,
        if_false]
      by_cases hcut : 2 ^ (intSize - 1) < digitsValue ds
      · simp [hcut, hnonpos]
      · simp [hcut, hnonpos]
    · simp only [hneg, Bool.not_false, Bool.true_and, Bool.false_and, Bool.false_eq_true,
        if_false]
      by_cases hcut : 2 ^ (intSize - 1) ≤ digitsValue ds
      · have hbig : ¬ (digitsValue ds : Int) < (2 : Int) ^ (intSize - 1) := by
          rw [← hpow]; omega
        simp [hcut, hbig]
      · have hsmall : (digitsValue ds : Int) < (2 : Int) ^ (intSize - 1) := by
          rw [← hpow]; omega
        simp [hcut, hsmall]

theorem positiveOr_ge (intSize : Nat) (dflt : Int) (s : String) (lo : Int) (hlo : lo ≤ dflt)
    (hlo1 : lo ≤ 1) : lo ≤ positiveOr intSize dflt s := by
  unfold positiveOr
  split
  · split <;> omega
  · exact hlo

/-- Claim C5, as the code has it. For every request and every width of `int`,
`getStartLimit` returns as start the value n of the `start` parameter when
that parameter is a decimal integer with 0 < n that fits an `int`
(n < 2^(intSize-1)), and 0 otherwise; as limit the value n of the `limit`
parameter under the same condition, and 50 otherwise. Each result is computed
from its own parameter alone, the start is never negative and the limit is at
least 1. -/
theorem getStartLimit_defaults (intSize : Nat) (req : Request) :
    (getStartLimit intSize req).1 =
        (match decimalInteger (req.queryGet "start") with
          | some n => if 0 < n ∧ n < (2 : Int) ^ (intSize - 1) then n else 0
          | none => 0) ∧
      (getStartLimit intSize req).2 =
        (match decimalInteger (req.queryGet "limit") with
          | some n => if 0 < n ∧ n < (2 : Int) ^ (intSize - 1) then n else 50
          | none => 50) ∧
      0 ≤ (getStartLimit intSize req).1 ∧ 1 ≤ (getStartLimit intSize req).2 := by
  refine ⟨positiveOr_eq intSize 0 _, positiveOr_eq intSize 50 _, ?_, ?_⟩
  · exact positiveOr_ge intSize 0 _ 0 (le_refl _) (by omega)
  · exact positiveOr_ge intSize 50 _ 1 (by omega) (le_refl _)

/-- Claim C5 as worded fails: the `start` parameter 9223372036854775808 is a
decimal integer greater than zero, yet on a 64-bit `int` `strconv.Atoi`
reports a range error and `getStartLimit` returns start 0. -/
theorem getStartLimit_range_counterexample :
    decimalInteger (reqHugeStart.queryGet "start") = some 9223372036854775808 ∧
      (claimedStartLimit reqHugeStart).1 = 9223372036854775808 ∧
      (getStartLimit 64 reqHugeStart).1 = 0 ∧
      getStartLimit 64 reqHugeStart ≠ claimedStartLimit reqHugeStart := by
  decide

end server

namespace storage

namespace KV

theorem mem_keys {kv : KV} {k : Key} : k ∈ kv.keys ↔ ∃ v, (k, v) ∈ kv := by
  simp [keys]

theorem mem_keys_of_mem {kv : KV} {k : Key} {v : Value} (h : (k, v) ∈ kv) : k ∈ kv.keys :=
  mem_keys.2 ⟨v, h⟩

theorem mem_Put {kv : KV} {batch : List (Key × Value)} {e : Key × Value} :
    e ∈ kv.Put batch ↔ e ∈ batch ∨ (e ∈ kv ∧ e.1 ∉ batch.map Prod.fst) := by
  simp [Put]

theorem mem_Delete {kv : KV} {ks : List Key} {e : Key × Value} :
    e ∈ kv.Delete ks ↔ e ∈ kv ∧ e.1 ∉ ks := by
  simp [Delete]

theorem mem_keys_Put {kv : KV} {batch : List (Key × Value)} {k : Key} :
    k ∈ (kv.Put batch).keys ↔ k ∈ batch.map Prod.fst ∨ k ∈ kv.keys := by
  constructor
  · intro h
    obtain ⟨v, hv⟩ := mem_keys.1 h
    rcases mem_Put.1 hv with hb | ⟨hk, -⟩
    · exact Or.inl (List.mem_map.2 ⟨(k, v), hb, rfl⟩)
    · exact Or.inr (mem_keys_of_mem hk)
  · intro h
    by_cases hb : k ∈ batch.map Prod.fst
    · obtain ⟨e, he, hek⟩ := List.mem_map.1 hb
      exact mem_keys.2 ⟨e.2, mem_Put.2 (Or.inl (by rw [← hek]; exact he))⟩
    · rcases h with h | h
      · exact absurd h hb
      · obtain ⟨v, hv⟩ := mem_keys.1 h
        exact mem_keys.2 ⟨v, mem_Put.2 (Or.inr ⟨hv, hb⟩)⟩

theorem mem_keys_Delete {kv : KV} {ks : List Key} {k : Key} :
    k ∈ (kv.Delete ks).keys ↔ k ∈ kv.keys ∧ k ∉ ks := by
  constructor
  · intro h
    obtain ⟨v, hv⟩ := mem_keys.1 h
    obtain ⟨h1, h2⟩ := mem_Delete.1 hv
    exact ⟨mem_keys_of_mem h1, h2⟩
  · rintro ⟨h1, h2⟩
    obtain ⟨v, hv⟩ := mem_keys.1 h1
    exact mem_keys.2 ⟨v, mem_Delete.2 ⟨hv, h2⟩⟩

theorem keys_filter (kv : KV) (p : Key → Bool) :
    keys (kv.filter fun e => p e.1) = kv.keys.filter p := by
  induction kv with
  | nil => rfl
  | cons e rest ih =>
      simp only [keys] at ih ⊢
      by_cases hp : p e.1 = true
      · simp [List.filter_cons, hp, ih]
      · simp [List.filter_cons, hp, ih]

theorem nodup_Delete {kv : KV} (ks : List Key) (h : kv.keys.Nodup) :
    (kv.Delete ks).keys.Nodup := by
  unfold Delete
  rw [keys_filter kv fun k => !ks.contains k]
  exact h.filter _

theorem nodup_Put {kv : KV} {batch : List (Key × Value)} (hb : (batch.map Prod.fst).Nodup)
    (h : kv.keys.Nodup) : (kv.Put batch).keys.Nodup := by
  unfold Put
  have hk : keys (batch ++ kv.filter fun e => !(batch.map Prod.fst).contains e.1) =
      batch.map Prod.fst ++ keys (kv.filter fun e => !(batch.map Prod.fst).contains e.1) := by
    simp [keys]
  rw [hk, keys_filter kv fun k => !(batch.map Prod.fst).contains k]
  refine List.Nodup.append hb (h.filter _) ?_
  intro k hk1 hk2
  have hc := (List.mem_filter.1 hk2).2
  have hnot : k ∉ batch.map Prod.fst := by simpa using hc
  exact hnot hk1

theorem Get_eq_some_iff {kv : KV} (h : kv.keys.Nodup) (k : Key) (v : Value) :
    kv.Get k = some v ↔ (k, v) ∈ kv := by
  induction kv with
  | nil => simp [Get]
  | cons e rest ih =>
      obtain ⟨k1, v1⟩ := e
      have hn : k1 ∉ keys rest ∧ (keys rest).Nodup := by simpa [keys] using h
      by_cases hk : k1 = k
      · subst hk
        have hnot : ∀ w, (k1, w) ∉ rest := fun w hw => hn.1 (mem_keys_of_mem hw)
        simp [Get, List.find?_cons, hnot]
        exact eq_comm
      · have hk2 : ¬ k = k1 := fun h => hk h.symm
        have := ih hn.2
        simp only [Get] at this
        simp [Get, List.find?_cons, hk, hk2, this]

theorem Get_isSome_iff (kv : KV) (k : Key) : (kv.Get k).isSome ↔ k ∈ kv.keys := by
  induction kv with
  | nil => simp [Get, keys]
  | cons e rest ih =>
      obtain ⟨k1, v1⟩ := e
      by_cases hk : k1 = k
      · simp [Get, keys, List.find?_cons, hk]
      · have hk2 : ¬ k = k1 := fun h => hk h.symm
        simp only [Get, keys] at ih
        simp [Get, keys, List.find?_cons, hk, hk2, ih]

theorem Get_mem {kv : KV} {k : Key} {v : Value} (h : kv.Get k = some v) : (k, v) ∈ kv := by
  induction kv with
  | nil => simp [Get] at h
  | cons e rest ih =>
      obtain ⟨k1, v1⟩ := e
      by_cases hk : k1 = k
      · simp [Get, List.find?_cons, hk] at h
        simp [hk, h]
      · simp only [Get, List.find?_cons] at h ih
        have hb : ((k1, v1).1 == k) = false := by simpa using hk
        rw [hb] at h
        exact List.mem_cons_of_mem _ (ih h)

end KV

end storage

namespace storage

theorem mem_messageKeys {m : String} {id : Nat} {toks : List String} {k : Key} :
    k ∈ messageKeys m id toks ↔
      k = Key.raw m id ∨ k = Key.sum m id ∨ k = Key.msg m id ∨ k = Key.read m id ∨
        ∃ t ∈ toks, k = Key.idx m t id := by
  simp only [messageKeys, List.mem_append, List.mem_cons, List.mem_map, List.mem_nil_iff,
    or_false]
  constructor
  · rintro ((h | h | h | h) | ⟨t, ht, rfl⟩)
    · exact Or.inl h
    · exact Or.inr (Or.inl h)
    · exact Or.inr (Or.inr (Or.inl h))
    · exact Or.inr (Or.inr (Or.inr (Or.inl h)))
    · exact Or.inr (Or.inr (Or.inr (Or.inr ⟨t, ht, rfl⟩)))
  · rintro (h | h | h | h | ⟨t, ht, rfl⟩)
    · exact Or.inl (Or.inl h)
    · exact Or.inl (Or.inr (Or.inl h))
    · exact Or.inl (Or.inr (Or.inr (Or.inl h)))
    · exact Or.inl (Or.inr (Or.inr (Or.inr h)))
    · exact Or.inr ⟨t, ht, rfl⟩

theorem slot_of_mem_messageKeys {m : String} {id : Nat} {toks : List String} {k : Key}
    (h : k ∈ messageKeys m id toks) : k.mailbox = m ∧ k.id = id := by
  rcases mem_messageKeys.1 h with h | h | h | h | ⟨t, -, h⟩ <;> subst h <;> exact ⟨rfl, rfl⟩

theorem storeBatch_keys (m : String) (id : Nat) (bytes : Bytes) (pm : ParsedMessage) :
    (storeBatch m id bytes pm).map Prod.fst = messageKeys m id (messageTokens pm) := by
  simp [storeBatch, messageKeys]

theorem messageTokens_nodup (pm : ParsedMessage) : (messageTokens pm).Nodup := by
  unfold messageTokens tokenizeAll
  exact List.nodup_dedup _

theorem messageKeys_nodup (m : String) (id : Nat) {toks : List String} (h : toks.Nodup) :
    (messageKeys m id toks).Nodup := by
  unfold messageKeys
  refine List.Nodup.append (by simp) ?_ ?_
  · exact (List.nodup_map_iff (fun a b hab => by injection hab)).2 h
  · intro k hk1 hk2
    obtain ⟨t, -, rfl⟩ := List.mem_map.1 hk2
    simp at hk1

theorem value_unique {kv : KV} (h : kv.keys.Nodup) {k : Key} {v w : Value}
    (hv : (k, v) ∈ kv) (hw : (k, w) ∈ kv) : v = w := by
  have h1 := (KV.Get_eq_some_iff h k v).2 hv
  have h2 := (KV.Get_eq_some_iff h k w).2 hw
  rw [h1] at h2
  exact Option.some.inj h2

theorem Whole_of_key {s : DB} (hinv : Inv s) {k : Key} (hk : k ∈ s.kv.keys) :
    Whole s.kv k.mailbox k.id := by
  rcases hinv.2.2 k.mailbox k.id with h | h
  · exact h
  · exact absurd ⟨rfl, rfl⟩ (h k hk)

/-- A change of the contents confined to the slots `S` keeps the invariant,
when the new contents are consistent on those slots. -/
theorem Inv_of_change {s s1 : DB} (S : String → Nat → Prop) (hinv : Inv s)
    (ha : s1.kv.keys.Nodup) (hb : ∀ k ∈ s1.kv.keys, k.id < s1.nextID)
    (hc : ∀ e : Key × Value, ¬ S e.1.mailbox e.1.id → (e ∈ s1.kv ↔ e ∈ s.kv))
    (hd : ∀ m id, S m id → Whole s1.kv m id ∨ Absent s1.kv m id) : Inv s1 := by
  refine ⟨ha, hb, fun m id => ?_⟩
  by_cases hS : S m id
  · exact hd m id hS
  · have hkeys : ∀ k : Key, k.mailbox = m → k.id = id → (k ∈ s1.kv.keys ↔ k ∈ s.kv.keys) := by
      intro k hm hi
      have hSk : ¬ S k.mailbox k.id := by rw [hm, hi]; exact hS
      constructor
      · intro h
        obtain ⟨v, hv⟩ := KV.mem_keys.1 h
        exact KV.mem_keys.2 ⟨v, (hc (k, v) hSk).1 hv⟩
      · intro h
        obtain ⟨v, hv⟩ := KV.mem_keys.1 h
        exact KV.mem_keys.2 ⟨v, (hc (k, v) hSk).2 hv⟩
    rcases hinv.2.2 m id with h | h
    · left
      obtain ⟨pm, bytes, b, h1, h2, h3, h4, h5⟩ := h
      refine ⟨pm, bytes, b, (hc (Key.raw m id, _) hS).2 h1, (hc (Key.msg m id, _) hS).2 h2,
        (hc (Key.sum m id, _) hS).2 h3, (hc (Key.read m id, _) hS).2 h4, ?_⟩
      intro t
      rw [hkeys (Key.idx m t id) rfl rfl]
      exact h5 t
    · right
      intro k hk hslot
      exact h k ((hkeys k hslot.1 hslot.2).1 hk) hslot

theorem Inv_InitDB (cfg : config.Config) : Inv (InitDB cfg) := by
  refine ⟨by simp [InitDB, KV.keys], by simp [InitDB, KV.keys], fun m id => Or.inr ?_⟩
  intro k hk
  simp [InitDB, KV.keys] at hk

theorem Inv_Store (P : Parser) (now : Nat) (m0 : String) (bytes : Bytes) {s : DB}
    (hinv : Inv s) : Inv ((Store P now m0 bytes s).state s) := by
  unfold Store
  split
  · exact hinv
  · split
    · exact hinv
    · simp only [Result.state]
      set id0 := max s.nextID now with hid0
      set pm : ParsedMessage :=
        { P.parse bytes with Date := some ((P.parse bytes).Date.getD now) } with hpm
      have hfresh : ∀ k ∈ s.kv.keys, k.id < id0 := fun k hk =>
        lt_of_lt_of_le (hinv.2.1 k hk) (le_max_left _ _)
      have hbk := storeBatch_keys m0 id0 bytes pm
      have hold : ∀ k ∈ s.kv.keys, k ∉ (storeBatch m0 id0 bytes pm).map Prod.fst := by
        intro k hk hkb
        rw [hbk] at hkb
        have := (slot_of_mem_messageKeys hkb).2
        have := hfresh k hk
        omega
      refine Inv_of_change (fun m id => m = m0 ∧ id = id0) hinv ?_ ?_ ?_ ?_
      · refine KV.nodup_Put ?_ hinv.1
        rw [hbk]
        exact messageKeys_nodup _ _ (messageTokens_nodup pm)
      · intro k hk
        rcases KV.mem_keys_Put.1 hk with h | h
        · rw [hbk] at h
          have := (slot_of_mem_messageKeys h).2
          simp only []
          omega
        · have := hfresh k h
          simp only []
          omega
      · intro e he
        simp only []
        rw [KV.mem_Put]
        constructor
        · rintro (h | ⟨h, -⟩)
          · have hk : e.1 ∈ (storeBatch m0 id0 bytes pm).map Prod.fst :=
              List.mem_map.2 ⟨e, h, rfl⟩
            rw [hbk] at hk
            exact absurd (slot_of_mem_messageKeys hk) he
          · exact h
        · intro h
          exact Or.inr ⟨h, hold e.1 (KV.mem_keys.2 ⟨e.2, h⟩)⟩
      · rintro m id ⟨rfl, rfl⟩
        left
        simp only []
        refine ⟨pm, bytes, false, ?_, ?_, ?_, ?_, ?_⟩
        · exact KV.mem_Put.2 (Or.inl (by simp [storeBatch]))
        · exact KV.mem_Put.2 (Or.inl (by simp [storeBatch]))
        · exact KV.mem_Put.2 (Or.inl (by simp [storeBatch]))
        · exact KV.mem_Put.2 (Or.inl (by simp [storeBatch]))
        · intro t
          rw [KV.mem_keys_Put, hbk, mem_messageKeys]
          constructor
          · rintro ((h | h | h | h | ⟨t1, ht1, h⟩) | h)
            · cases h
            · cases h
            · cases h
            · cases h
            · injection h with _ h2 _
              rw [h2]; exact ht1
            · have := hfresh _ h
              simp [Key.id] at this
          · intro ht
            exact Or.inl (Or.inr (Or.inr (Or.inr (Or.inr ⟨t, ht, rfl⟩))))

end storage

namespace storage

theorem Whole_msg_unique {s : DB} (hinv : Inv s) {m : String} {id : Nat} {pm0 : ParsedMessage}
    (hmsg : (Key.msg m id, Value.message pm0) ∈ s.kv) :
    ∃ bytes b,
      (Key.raw m id, Value.blob bytes) ∈ s.kv ∧
      (Key.sum m id, Value.summary (mkSummary id pm0 bytes.length)) ∈ s.kv ∧
      (Key.read m id, Value.flag b) ∈ s.kv ∧
      ∀ t, Key.idx m t id ∈ s.kv.keys ↔ t ∈ messageTokens pm0 := by
  obtain ⟨pm, bytes, b, h1, h2, h3, h4, h5⟩ :=
    Whole_of_key hinv (KV.mem_keys_of_mem hmsg)
  have hpm : pm = pm0 := by
    have := value_unique hinv.1 h2 hmsg
    injection this
  subst hpm
  exact ⟨bytes, b, h1, h3, h4, h5⟩

theorem Inv_DeleteMessage (m0 : String) (id0 : Nat) {s : DB} (hinv : Inv s) :
    Inv ((DeleteMessage m0 id0 s).state s) := by
  unfold DeleteMessage
  split
  · exact hinv
  · split
    · rename_i pm0 hget
      have hmsg := KV.Get_mem hget
      obtain ⟨bytes, b, -, -, -, hidx⟩ := Whole_msg_unique hinv hmsg
      simp only [Result.state]
      refine Inv_of_change (fun m id => m = m0 ∧ id = id0) hinv ?_ ?_ ?_ ?_
      · exact KV.nodup_Delete _ hinv.1
      · intro k hk
        exact hinv.2.1 k (KV.mem_keys_Delete.1 hk).1
      · intro e he
        simp only []
        rw [KV.mem_Delete]
        constructor
        · exact fun h => h.1
        · exact fun h => ⟨h, fun hk => he (slot_of_mem_messageKeys hk)⟩
      · rintro m id ⟨rfl, rfl⟩
        right
        intro k hk hslot
        simp only [] at hk
        obtain ⟨hk1, hk2⟩ := KV.mem_keys_Delete.1 hk
        apply hk2
        rw [mem_messageKeys]
        cases k with
        | raw m1 i1 => simp only [Key.mailbox, Key.id] at hslot; simp [hslot.1, hslot.2]
        | sum m1 i1 => simp only [Key.mailbox, Key.id] at hslot; simp [hslot.1, hslot.2]
        | msg m1 i1 => simp only [Key.mailbox, Key.id] at hslot; simp [hslot.1, hslot.2]
        | read m1 i1 => simp only [Key.mailbox, Key.id] at hslot; simp [hslot.1, hslot.2]
        | idx m1 t1 i1 =>
            simp only [Key.mailbox, Key.id] at hslot
            obtain ⟨rfl, rfl⟩ := hslot
            exact Or.inr (Or.inr (Or.inr (Or.inr ⟨t1, (hidx t1).1 hk1, rfl⟩)))
    · exact hinv

/-- Writing the read flag of a stored message keeps the invariant. -/
theorem Inv_put_read (m0 : String) (id0 : Nat) (flag : Bool) {s s1 : DB} (hinv : Inv s)
    (hkey : Key.sum m0 id0 ∈ s.kv.keys)
    (hkv : s1.kv = s.kv.Put [(Key.read m0 id0, Value.flag flag)])
    (hnext : s1.nextID = s.nextID) : Inv s1 := by
  have hwhole := Whole_of_key hinv hkey
  simp only [Key.mailbox, Key.id] at hwhole
  obtain ⟨pm, bytes, b, h1, h2, h3, h4, h5⟩ := hwhole
  have hkeys : ∀ k, k ∈ s1.kv.keys ↔ k ∈ s.kv.keys := by
    intro k
    rw [hkv, KV.mem_keys_Put]
    constructor
    · rintro (h | h)
      · simp only [List.map_cons, List.map_nil, List.mem_singleton] at h
        rw [h]
        exact KV.mem_keys_of_mem h4
      · exact h
    · exact fun h => Or.inr h
  have hkeep : ∀ e : Key × Value, e.1 ≠ Key.read m0 id0 → (e ∈ s1.kv ↔ e ∈ s.kv) := by
    intro e he
    rw [hkv, KV.mem_Put]
    constructor
    · rintro (h | ⟨h, -⟩)
      · simp only [List.mem_singleton] at h
        rw [h] at he
        exact absurd rfl he
      · exact h
    · intro h
      exact Or.inr ⟨h, by simpa using he⟩
  refine Inv_of_change (fun m id => m = m0 ∧ id = id0) hinv ?_ ?_ ?_ ?_
  · rw [hkv]
    exact KV.nodup_Put (by simp) hinv.1
  · intro k hk
    rw [hnext]
    exact hinv.2.1 k ((hkeys k).1 hk)
  · intro e he
    refine hkeep e ?_
    intro hk
    rw [hk] at he
    exact he ⟨rfl, rfl⟩
  · rintro m id ⟨rfl, rfl⟩
    left
    refine ⟨pm, bytes, flag, (hkeep _ (by simp)).2 h1, (hkeep _ (by simp)).2 h2,
      (hkeep _ (by simp)).2 h3, ?_, ?_⟩
    · rw [hkv]
      exact KV.mem_Put.2 (Or.inl (by simp))
    · intro t
      rw [hkeys]
      exact h5 t

theorem Inv_GetMessage (m0 : String) (id0 : Nat) {s : DB} (hinv : Inv s) :
    Inv ((GetMessage m0 id0 s).state s) := by
  unfold GetMessage
  split
  · exact hinv
  · split
    · split
      · rename_i hcond
        simp only [Result.state]
        exact Inv_put_read m0 id0 true hinv ((KV.Get_isSome_iff _ _).1 hcond.2) rfl rfl
      · exact hinv
    · exact hinv

theorem Inv_MarkUnread (m0 : String) (id0 : Nat) {s : DB} (hinv : Inv s) :
    Inv ((MarkUnread m0 id0 s).state s) := by
  unfold MarkUnread
  split
  · exact hinv
  · split
    · rename_i hcond
      simp only [Result.state]
      exact Inv_put_read m0 id0 false hinv ((KV.Get_isSome_iff _ _).1 hcond) rfl rfl
    · exact hinv

theorem mem_under_keys {kv : KV} {m0 : String} {k : Key} :
    k ∈ (kv.Scan (Key.under m0)).keys ↔ k ∈ kv.keys ∧ k.mailbox = m0 := by
  unfold KV.Scan
  rw [KV.keys_filter kv (Key.under m0), List.mem_filter]
  simp [Key.under]

theorem Inv_DeleteAllMessages (m0 : String) {s : DB} (hinv : Inv s) :
    Inv ((DeleteAllMessages m0 s).state s) := by
  unfold DeleteAllMessages
  split
  · exact hinv
  · simp only [Result.state]
    refine Inv_of_change (fun m _ => m = m0) hinv ?_ ?_ ?_ ?_
    · exact KV.nodup_Delete _ hinv.1
    · intro k hk
      exact hinv.2.1 k (KV.mem_keys_Delete.1 hk).1
    · intro e he
      simp only []
      rw [KV.mem_Delete, mem_under_keys]
      constructor
      · exact fun h => h.1
      · exact fun h => ⟨h, fun hk => he hk.2⟩
    · rintro m id rfl
      right
      intro k hk hslot
      simp only [] at hk
      obtain ⟨hk1, hk2⟩ := KV.mem_keys_Delete.1 hk
      exact hk2 (mem_under_keys.2 ⟨hk1, hslot.1⟩)

theorem foldl_keeps {α : Type} (Q : DB → Prop) (f : DB → α → DB)
    (hf : ∀ s a, Q s → Q (f s a)) (l : List α) (s : DB) (hs : Q s) : Q (l.foldl f s) := by
  induction l generalizing s with
  | nil => exact hs
  | cons a rest ih => exact ih (f s a) (hf s a hs)

theorem Inv_pruneMailbox (s : DB) (m : String) (hinv : Inv s) : Inv (pruneMailbox s m) := by
  unfold pruneMailbox
  simp only []
  split
  · exact foldl_keeps Inv _ (fun s1 id h => Inv_DeleteMessage m id h) _ s hinv
  · exact hinv

theorem Inv_Prune {s : DB} (hinv : Inv s) : Inv (Prune s) := by
  unfold Prune
  split
  · exact hinv
  · exact foldl_keeps Inv _ Inv_pruneMailbox _ s hinv

theorem Inv_step (P : Parser) {s : DB} (hinv : Inv s) (op : Op) : Inv (step P s op) := by
  cases op with
  | store now m bytes => exact Inv_Store P now m bytes hinv
  | getMessage m id => exact Inv_GetMessage m id hinv
  | markUnread m id => exact Inv_MarkUnread m id hinv
  | deleteMessage m id => exact Inv_DeleteMessage m id hinv
  | deleteAll m => exact Inv_DeleteAllMessages m hinv
  | prune => exact Inv_Prune hinv
  | close => exact hinv

/-- Every reachable state of the store is consistent. -/
theorem Inv_of_Reachable {P : Parser} {s : DB} (h : Reachable P s) : Inv s := by
  induction h with
  | init cfg => exact Inv_InitDB cfg
  | next s op _ ih => exact Inv_step P ih op

end storage

namespace storage

theorem Count_eq (kv : KV) (p : Key → Bool) : kv.Count p = (kv.keys.filter p).length := by
  unfold KV.Count KV.Scan
  rw [← KV.keys_filter kv p]
  simp [KV.keys]

theorem isSumOf_iff {m : String} {k : Key} : Key.isSumOf m k = true ↔ ∃ id, k = Key.sum m id := by
  cases k <;> simp [Key.isSumOf]

theorem Count_Put_of_not {kv : KV} {batch : List (Key × Value)} {p : Key → Bool}
    (h : ∀ k ∈ batch.map Prod.fst, p k = false) : (kv.Put batch).Count p = kv.Count p := by
  unfold KV.Count KV.Scan KV.Put
  rw [List.filter_append, List.length_append, List.filter_filter]
  have h1 : batch.filter (fun e => p e.1) = [] := by
    rw [List.filter_eq_nil_iff]
    intro e he
    have := h e.1 (List.mem_map.2 ⟨e, he, rfl⟩)
    simp [this]
  have h2 : kv.filter (fun e => p e.1 && !(batch.map Prod.fst).contains e.1) =
      kv.filter (fun e => p e.1) := by
    apply List.filter_congr
    intro e _
    by_cases hp : p e.1 = true
    · have hn : e.1 ∉ batch.map Prod.fst := fun hm => by
        have := h e.1 hm
        rw [hp] at this
        cases this
      have hc : (batch.map Prod.fst).contains e.1 = false := by
        simpa using hn
      simp only [hc, Bool.not_false, Bool.and_true]
    · simp [hp]
  rw [h1, h2]
  simp

theorem Count_Delete_of_not {kv : KV} {ks : List Key} {p : Key → Bool}
    (h : ∀ k ∈ ks, p k = false) : (kv.Delete ks).Count p = kv.Count p := by
  unfold KV.Count KV.Scan KV.Delete
  rw [List.filter_filter]
  congr 1
  apply List.filter_congr
  intro e _
  by_cases hp : p e.1 = true
  · have hn : e.1 ∉ ks := fun hm => by
      have := h e.1 hm
      rw [hp] at this
      cases this
    have hc : ks.contains e.1 = false := by simpa using hn
    simp only [hc, Bool.not_false, Bool.and_true]
  · simp [hp]

/-- A successful `Store` adds one message to the count of its mailbox and
none to the others. -/
theorem Count_Store (P : Parser) (now : Nat) (m0 m : String) (bytes : Bytes) {s s1 : DB}
    {id : Nat} (hinv : Inv s) (h : Store P now m0 bytes s = Except.ok (id, s1)) :
    s1.kv.Count (Key.isSumOf m) = s.kv.Count (Key.isSumOf m) + (if m0 = m then 1 else 0) := by
  unfold Store at h
  split at h
  · cases h
  · split at h
    · cases h
    · simp only [Except.ok.injEq, Prod.mk.injEq] at h
      obtain ⟨hid, hs1⟩ := h
      subst hs1
      simp only []
      set id0 := max s.nextID now with hid0
      set pm : ParsedMessage :=
        { P.parse bytes with Date := some ((P.parse bytes).Date.getD now) } with hpm
      have hfresh : ∀ k ∈ s.kv.keys, k.id < id0 := fun k hk =>
        lt_of_lt_of_le (hinv.2.1 k hk) (le_max_left _ _)
      have hbk := storeBatch_keys m0 id0 bytes pm
      have hself : (s.kv.filter fun e => !((storeBatch m0 id0 bytes pm).map Prod.fst).contains e.1)
          = s.kv := by
        rw [List.filter_eq_self]
        intro e he
        have hlt := hfresh e.1 (KV.mem_keys.2 ⟨e.2, he⟩)
        have hn : e.1 ∉ (storeBatch m0 id0 bytes pm).map Prod.fst := by
          intro hk
          rw [hbk] at hk
          have := (slot_of_mem_messageKeys hk).2
          omega
        simpa using hn
      have hidx : ((messageTokens pm).map fun t => (Key.idx m0 t id0, Value.empty)).filter
          (fun e => Key.isSumOf m e.1) = [] := by
        rw [List.filter_eq_nil_iff]
        intro e he
        obtain ⟨t, -, rfl⟩ := List.mem_map.1 he
        simp [Key.isSumOf]
      unfold KV.Count KV.Scan KV.Put
      rw [hself, List.filter_append, List.length_append]
      unfold storeBatch
      rw [List.filter_append, hidx]
      by_cases hm : m0 = m
      · subst hm
        simp [List.filter_cons, Key.isSumOf]
        omega
      · simp [List.filter_cons, Key.isSumOf, hm]

/-- A successful `DeleteMessage` takes one message from the count of its
mailbox and none from the others. -/
theorem Count_DeleteMessage (m0 m : String) (id0 : Nat) {s s1 : DB} (hinv : Inv s)
    (h : DeleteMessage m0 id0 s = Except.ok ((), s1)) :
    s1.kv.Count (Key.isSumOf m) + (if m0 = m then 1 else 0) = s.kv.Count (Key.isSumOf m) := by
  unfold DeleteMessage at h
  split at h
  · cases h
  · split at h
    · rename_i pm0 hget
      simp only [Except.ok.injEq, Prod.mk.injEq, true_and] at h
      subst h
      simp only []
      obtain ⟨bytes, b, -, hsum, -, -⟩ := Whole_msg_unique hinv (KV.Get_mem hget)
      have hsumkey : Key.sum m0 id0 ∈ s.kv.keys := KV.mem_keys_of_mem hsum
      rw [Count_eq, Count_eq]
      have hkeys : KV.keys (s.kv.Delete (messageKeys m0 id0 (messageTokens pm0))) =
          s.kv.keys.filter fun k => !(messageKeys m0 id0 (messageTokens pm0)).contains k := by
        unfold KV.Delete
        exact KV.keys_filter s.kv fun k => !(messageKeys m0 id0 (messageTokens pm0)).contains k
      rw [hkeys, List.filter_filter]
      have hcongr : s.kv.keys.filter (fun k => Key.isSumOf m k &&
            !(messageKeys m0 id0 (messageTokens pm0)).contains k) =
          (s.kv.keys.filter (Key.isSumOf m)).filter (fun k => k != Key.sum m0 id0) := by
        rw [List.filter_filter]
        apply List.filter_congr
        intro k _
        by_cases hp : Key.isSumOf m k = true
        · obtain ⟨i, rfl⟩ := isSumOf_iff.1 hp
          by_cases hk : Key.sum m i = Key.sum m0 id0
          · have hmem : Key.sum m i ∈ messageKeys m0 id0 (messageTokens pm0) := by
              rw [hk, mem_messageKeys]; simp
            have hc : (messageKeys m0 id0 (messageTokens pm0)).contains (Key.sum m i) = true := by
              simpa using hmem
            have hne : (Key.sum m i != Key.sum m0 id0) = false := by simpa using hk
            rw [hp, hc, hne]
            rfl
          · have hmem : Key.sum m i ∉ messageKeys m0 id0 (messageTokens pm0) := by
              rw [mem_messageKeys]
              simp only [not_or]
              refine ⟨by simp, hk, by simp, by simp, ?_⟩
              rintro ⟨t, -, ht⟩
              cases ht
            have hc : (messageKeys m0 id0 (messageTokens pm0)).contains (Key.sum m i) = false := by
              simpa using hmem
            have hne : (Key.sum m i != Key.sum m0 id0) = true := by simpa using hk
            rw [hp, hc, hne]
            rfl
        · simp [hp]
      rw [hcongr]
      have hnd : (s.kv.keys.filter (Key.isSumOf m)).Nodup := hinv.1.filter _
      rw [← List.Nodup.erase_eq_filter hnd]
      by_cases hm : m0 = m
      · subst hm
        have hmem : Key.sum m0 id0 ∈ s.kv.keys.filter (Key.isSumOf m0) :=
          List.mem_filter.2 ⟨hsumkey, by simp [Key.isSumOf]⟩
        rw [List.length_erase_of_mem hmem, if_pos rfl]
        have := List.length_pos_of_mem hmem
        omega
      · have hnot : Key.sum m0 id0 ∉ s.kv.keys.filter (Key.isSumOf m) := by
          intro hmem
          have := (List.mem_filter.1 hmem).2
          simp [Key.isSumOf, hm] at this
        rw [List.erase_of_not_mem hnot, if_neg hm]
        rfl
    · cases h

/-- Claim C1. In every state of the store, on either backend and whatever
was stored before, a successful `DeleteAllMessages(m)` leaves a state in which
`Count(m)` returns 0 without error, and in which no key of mailbox `m` (message
or index) remains. -/
theorem DeleteAllMessages_count_zero (m : String) (s s1 : DB)
    (h : DeleteAllMessages m s = Except.ok ((), s1)) :
    Count m s1 = Except.ok 0 ∧ ∀ k ∈ s1.kv.keys, k.mailbox ≠ m := by
  unfold DeleteAllMessages at h
  split at h
  · cases h
  · rename_i hopen
    simp only [Except.ok.injEq, Prod.mk.injEq, true_and] at h
    subst h
    have hgone : ∀ k ∈ KV.keys (s.kv.Delete ((s.kv.Scan (Key.under m)).keys)), k.mailbox ≠ m := by
      intro k hk hm
      obtain ⟨hk1, hk2⟩ := KV.mem_keys_Delete.1 hk
      exact hk2 (mem_under_keys.2 ⟨hk1, hm⟩)
    refine ⟨?_, hgone⟩
    unfold Count
    simp only [hopen, Bool.false_eq_true, if_false]
    rw [Count_eq]
    have hnil : (KV.keys (s.kv.Delete ((s.kv.Scan (Key.under m)).keys))).filter (Key.isSumOf m)
        = [] := by
      rw [List.filter_eq_nil_iff]
      intro k hk hp
      obtain ⟨i, rfl⟩ := isSumOf_iff.1 hp
      exact hgone _ hk rfl
    rw [hnil]
    rfl

end storage

namespace storage

theorem Store_fields (P : Parser) (now : Nat) (m0 : String) (bytes : Bytes) (s : DB) :
    ((Store P now m0 bytes s).state s).closed = s.closed ∧
      ((Store P now m0 bytes s).state s).maxMessages = s.maxMessages := by
  unfold Store
  split
  · exact ⟨rfl, rfl⟩
  · split <;> exact ⟨rfl, rfl⟩

theorem DeleteMessage_fields (m0 : String) (id0 : Nat) (s : DB) :
    ((DeleteMessage m0 id0 s).state s).closed = s.closed ∧
      ((DeleteMessage m0 id0 s).state s).maxMessages = s.maxMessages := by
  unfold DeleteMessage
  split
  · exact ⟨rfl, rfl⟩
  · split <;> exact ⟨rfl, rfl⟩

theorem GetMessage_fields (m0 : String) (id0 : Nat) (m : String) (s : DB) :
    ((GetMessage m0 id0 s).state s).closed = s.closed ∧
      ((GetMessage m0 id0 s).state s).maxMessages = s.maxMessages ∧
      ((GetMessage m0 id0 s).state s).kv.Count (Key.isSumOf m) = s.kv.Count (Key.isSumOf m) := by
  unfold GetMessage
  split
  · exact ⟨rfl, rfl, rfl⟩
  · split
    · split
      · refine ⟨rfl, rfl, ?_⟩
        simp only [Result.state]
        exact Count_Put_of_not (by simp [Key.isSumOf])
      · exact ⟨rfl, rfl, rfl⟩
    · exact ⟨rfl, rfl, rfl⟩

theorem MarkUnread_fields (m0 : String) (id0 : Nat) (m : String) (s : DB) :
    ((MarkUnread m0 id0 s).state s).closed = s.closed ∧
      ((MarkUnread m0 id0 s).state s).maxMessages = s.maxMessages ∧
      ((MarkUnread m0 id0 s).state s).kv.Count (Key.isSumOf m) = s.kv.Count (Key.isSumOf m) := by
  unfold MarkUnread
  split
  · exact ⟨rfl, rfl, rfl⟩
  · split
    · refine ⟨rfl, rfl, ?_⟩
      simp only [Result.state]
      exact Count_Put_of_not (by simp [Key.isSumOf])
    · exact ⟨rfl, rfl, rfl⟩

theorem DeleteAllMessages_fields (m0 m : String) (hm : m0 ≠ m) (s : DB) :
    ((DeleteAllMessages m0 s).state s).closed = s.closed ∧
      ((DeleteAllMessages m0 s).state s).maxMessages = s.maxMessages ∧
      ((DeleteAllMessages m0 s).state s).kv.Count (Key.isSumOf m) =
        s.kv.Count (Key.isSumOf m) := by
  unfold DeleteAllMessages
  split
  · exact ⟨rfl, rfl, rfl⟩
  · refine ⟨rfl, rfl, ?_⟩
    simp only [Result.state]
    apply Count_Delete_of_not
    intro k hk
    have hkm := (mem_under_keys.1 hk).2
    cases hp : Key.isSumOf m k
    · rfl
    · obtain ⟨i, rfl⟩ := isSumOf_iff.1 hp
      exact absurd hkm.symm hm

/-- The stores into and deletes from a mailbox that one operation adds. -/
theorem step_count (P : Parser) (m : String) {s : DB} (hinv : Inv s)
    (hopen : s.closed = false) (hmax : s.maxMessages = 0) (op : Op)
    (hop : keepsMailbox m op = true) :
    (step P s op).closed = false ∧ (step P s op).maxMessages = 0 ∧
      (step P s op).kv.Count (Key.isSumOf m) + deletesFrom P m s [op] =
        s.kv.Count (Key.isSumOf m) + storesInto P m s [op] := by
  cases op with
  | store now m0 bytes =>
      obtain ⟨h1, h2⟩ := Store_fields P now m0 bytes s
      refine ⟨by simp only [step]; rw [h1, hopen], by simp only [step]; rw [h2, hmax], ?_⟩
      simp only [step, storesInto, deletesFrom, succeeds, add_zero]
      have key : ∀ r : Result Nat, Store P now m0 bytes s = r →
          (r.state s).kv.Count (Key.isSumOf m) =
            s.kv.Count (Key.isSumOf m) + if m0 = m ∧ r.isOk = true then 1 else 0 := by
        intro r hres
        cases r with
        | error e => simp [Result.state, Except.isOk, Except.toBool]
        | ok r =>
            obtain ⟨id, s1⟩ := r
            have := Count_Store P now m0 m bytes hinv hres
            simp only [Result.state, Except.isOk, Except.toBool, and_true]
            omega
      exact key _ rfl
  | getMessage m0 id0 =>
      obtain ⟨h1, h2, h3⟩ := GetMessage_fields m0 id0 m s
      refine ⟨by simp only [step]; rw [h1, hopen], by simp only [step]; rw [h2, hmax], ?_⟩
      simp only [step, storesInto, deletesFrom, add_zero]
      exact h3
  | markUnread m0 id0 =>
      obtain ⟨h1, h2, h3⟩ := MarkUnread_fields m0 id0 m s
      refine ⟨by simp only [step]; rw [h1, hopen], by simp only [step]; rw [h2, hmax], ?_⟩
      simp only [step, storesInto, deletesFrom, add_zero]
      exact h3
  | deleteMessage m0 id0 =>
      obtain ⟨h1, h2⟩ := DeleteMessage_fields m0 id0 s
      refine ⟨by simp only [step]; rw [h1, hopen], by simp only [step]; rw [h2, hmax], ?_⟩
      simp only [step, storesInto, deletesFrom, succeeds, add_zero]
      have key : ∀ r : Result Unit, DeleteMessage m0 id0 s = r →
          ((r.state s).kv.Count (Key.isSumOf m) + if m0 = m ∧ r.isOk = true then 1 else 0) =
            s.kv.Count (Key.isSumOf m) := by
        intro r hres
        cases r with
        | error e => simp [Result.state, Except.isOk, Except.toBool]
        | ok r =>
            obtain ⟨u, s1⟩ := r
            have := Count_DeleteMessage m0 m id0 hinv hres
            simp only [Result.state, Except.isOk, Except.toBool, and_true]
            omega
      exact key _ rfl
  | deleteAll m0 =>
      have hm : m0 ≠ m := by simpa [keepsMailbox] using hop
      obtain ⟨h1, h2, h3⟩ := DeleteAllMessages_fields m0 m hm s
      refine ⟨by simp only [step]; rw [h1, hopen], by simp only [step]; rw [h2, hmax], ?_⟩
      simp only [step, storesInto, deletesFrom, add_zero]
      exact h3
  | prune =>
      have hp : Prune s = s := by simp [Prune, hmax]
      simp only [step, storesInto, deletesFrom, add_zero, hp]
      exact ⟨hopen, hmax, trivial⟩
  | close => simp [keepsMailbox] at hop

theorem storesInto_cons (P : Parser) (m : String) (s : DB) (op : Op) (ops : List Op) :
    storesInto P m s (op :: ops) = storesInto P m s [op] + storesInto P m (step P s op) ops := by
  simp [storesInto]

theorem deletesFrom_cons (P : Parser) (m : String) (s : DB) (op : Op) (ops : List Op) :
    deletesFrom P m s (op :: ops) =
      deletesFrom P m s [op] + deletesFrom P m (step P s op) ops := by
  simp [deletesFrom]

theorem run_count (P : Parser) (m : String) (ops : List Op) :
    ∀ s : DB, Inv s → s.closed = false → s.maxMessages = 0 →
      (∀ op ∈ ops, keepsMailbox m op = true) →
      (run P s ops).closed = false ∧
        (run P s ops).kv.Count (Key.isSumOf m) + deletesFrom P m s ops =
          s.kv.Count (Key.isSumOf m) + storesInto P m s ops := by
  induction ops with
  | nil =>
      intro s _ hopen _ _
      exact ⟨hopen, by simp [run, storesInto, deletesFrom]⟩
  | cons op rest ih =>
      intro s hinv hopen hmax hops
      obtain ⟨h1, h2, h3⟩ := step_count P m hinv hopen hmax op (hops op (List.mem_cons_self _ _))
      obtain ⟨h4, h5⟩ := ih (step P s op) (Inv_step P hinv op) h1 h2
        (fun o ho => hops o (List.mem_cons_of_mem _ ho))
      have hrun : run P s (op :: rest) = run P (step P s op) rest := rfl
      rw [hrun, storesInto_cons, deletesFrom_cons]
      exact ⟨h4, by omega⟩

/-- Claim C2. With pruning disabled (`MaxMessages = 0`), from a reachable
state in which mailbox `m` is empty, after any run of operations other than
`DeleteAllMessages(m)` and `Close` (stores and deletes on any mailbox, reads,
pruner ticks), `Count(m)` returns exactly the number N of successful
`Store(m, bytes)` calls minus the number K of successful `DeleteMessage(m, id)`
calls of the run, whatever the stored bytes are; K never exceeds N. -/
theorem Count_consistency (P : Parser) (m : String) (s : DB) (ops : List Op)
    (hreach : Reachable P s) (hempty : Count m s = Except.ok 0) (hmax : s.maxMessages = 0)
    (hops : ∀ op ∈ ops, keepsMailbox m op = true) :
    deletesFrom P m s ops ≤ storesInto P m s ops ∧
      Count m (run P s ops) =
        Except.ok (storesInto P m s ops - deletesFrom P m s ops) := by
  have hopen : s.closed = false := by
    unfold Count at hempty
    cases hc : s.closed
    · rfl
    · simp [hc] at hempty
  have h0 : s.kv.Count (Key.isSumOf m) = 0 := by
    unfold Count at hempty
    simpa [hopen] using hempty
  obtain ⟨h1, h2⟩ := run_count P m ops s (Inv_of_Reachable hreach) hopen hmax hops
  refine ⟨by omega, ?_⟩
  unfold Count
  simp only [h1, Bool.false_eq_true, if_false]
  congr 1
  omega

end storage

namespace storage

theorem Store_ok_of_open (P : Parser) (now : Nat) (m : String) (bytes : Bytes) (s : DB)
    (hopen : s.closed = false) (hvalid : validMailbox m = true) :
    succeeds P s (Op.store now m bytes) = true ∧
      (step P s (Op.store now m bytes)).closed = false := by
  constructor
  · simp [succeeds, Store, hopen, hvalid, Except.isOk, Except.toBool]
  · have h := (Store_fields P now m bytes s).1
    simp only [step]
    rw [h, hopen]

theorem storesInto_stores (P : Parser) (m : String) (bytes : Bytes)
    (hvalid : validMailbox m = true) (nows : List Nat) :
    ∀ s : DB, s.closed = false →
      storesInto P m s (nows.map fun t => Op.store t m bytes) = nows.length ∧
        deletesFrom P m s (nows.map fun t => Op.store t m bytes) = 0 := by
  induction nows with
  | nil => exact fun _ _ => ⟨rfl, rfl⟩
  | cons t rest ih =>
      intro s hopen
      obtain ⟨h1, h2⟩ := Store_ok_of_open P t m bytes s hopen hvalid
      obtain ⟨h3, h4⟩ := ih (step P s (Op.store t m bytes)) h2
      constructor
      · simp only [List.map_cons, storesInto, h1, and_self, if_true, h3, List.length_cons]
        omega
      · simp only [List.map_cons, deletesFrom, h4]

/-- The scenario of `TestTextEmailInserts` and `TestMimeEmailInserts`, for any
number of messages: after storing the same blob into `INBOX` of a fresh store
with pruning disabled, once for each clock reading, `Count` returns the number
of stores. -/
theorem Count_after_identical_stores (P : Parser) (cfg : config.Config) (bytes : Bytes)
    (nows : List Nat) (hmax : cfg.MaxMessages = 0) :
    Count DefaultMailbox
        (run P (InitDB cfg) (nows.map fun t => Op.store t DefaultMailbox bytes)) =
      Except.ok nows.length := by
  have hvalid : validMailbox DefaultMailbox = true := by decide
  have hopen : (InitDB cfg).closed = false := rfl
  have hops : ∀ op ∈ nows.map (fun t => Op.store t DefaultMailbox bytes),
      keepsMailbox DefaultMailbox op = true := by
    intro op hop
    obtain ⟨t, -, rfl⟩ := List.mem_map.1 hop
    rfl
  have hmax0 : (InitDB cfg).maxMessages = 0 := by simp [InitDB, hmax]
  obtain ⟨-, h2⟩ := run_count P DefaultMailbox _ (InitDB cfg) (Inv_InitDB cfg) hopen hmax0 hops
  obtain ⟨h3, h4⟩ := storesInto_stores P DefaultMailbox bytes hvalid nows (InitDB cfg) hopen
  obtain ⟨hclosed, -⟩ := run_count P DefaultMailbox _ (InitDB cfg) (Inv_InitDB cfg) hopen hmax0 hops
  have h0 : (InitDB cfg).kv.Count (Key.isSumOf DefaultMailbox) = 0 := rfl
  unfold Count
  simp only [hclosed, Bool.false_eq_true, if_false]
  congr 1
  omega

end storage

namespace storage

theorem mem_indexIDs {kv : KV} {m t : String} {id : Nat} :
    id ∈ indexIDs kv m t ↔ Key.idx m t id ∈ kv.keys := by
  unfold indexIDs KV.Scan
  rw [List.mem_dedup, KV.keys_filter kv (Key.isIdxOf m t), List.mem_map]
  constructor
  · rintro ⟨k, hk, rfl⟩
    obtain ⟨hk1, hk2⟩ := List.mem_filter.1 hk
    cases k with
    | idx m1 t1 i1 =>
        simp only [Key.isIdxOf, Bool.and_eq_true, beq_iff_eq] at hk2
        obtain ⟨rfl, rfl⟩ := hk2
        exact hk1
    | raw _ _ => simp [Key.isIdxOf] at hk2
    | sum _ _ => simp [Key.isIdxOf] at hk2
    | msg _ _ => simp [Key.isIdxOf] at hk2
    | read _ _ => simp [Key.isIdxOf] at hk2
  · intro h
    exact ⟨Key.idx m t id, List.mem_filter.2 ⟨h, by simp [Key.isIdxOf]⟩, rfl⟩

theorem mem_storedMessages {kv : KV} {m : String} {id : Nat} {pm : ParsedMessage} :
    (id, pm) ∈ storedMessages kv m ↔ (Key.msg m id, Value.message pm) ∈ kv := by
  unfold storedMessages
  rw [List.mem_filterMap]
  constructor
  · rintro ⟨e, he, hf⟩
    obtain ⟨k, v⟩ := e
    cases k with
    | msg m1 i1 =>
        cases v with
        | message pm1 =>
            simp only at hf
            split at hf
            · rename_i hm
              simp only [Option.some.injEq, Prod.mk.injEq] at hf
              obtain ⟨rfl, rfl⟩ := hf
              rw [← hm]
              exact he
            · cases hf
        | blob _ => simp at hf
        | summary _ => simp at hf
        | flag _ => simp at hf
        | empty => simp at hf
    | raw _ _ => simp at hf
    | sum _ _ => simp at hf
    | read _ _ => simp at hf
    | idx _ _ _ => simp at hf
  · intro h
    exact ⟨_, h, by simp⟩

theorem mem_matchingIDs {tokensOf : ParsedMessage → List String} {kv : KV} {m q : String}
    {id : Nat} :
    id ∈ matchingIDs tokensOf kv m q ↔
      ∃ pm, (Key.msg m id, Value.message pm) ∈ kv ∧ ∀ t ∈ tokenize q, t ∈ tokensOf pm := by
  unfold matchingIDs
  rw [List.mem_dedup, List.mem_map]
  constructor
  · rintro ⟨x, hx, rfl⟩
    obtain ⟨hx1, hx2⟩ := List.mem_filter.1 hx
    refine ⟨x.2, mem_storedMessages.1 hx1, ?_⟩
    simpa using hx2
  · rintro ⟨pm, h1, h2⟩
    refine ⟨(id, pm), List.mem_filter.2 ⟨mem_storedMessages.2 h1, ?_⟩, rfl⟩
    simpa using h2

/-- In a consistent store the ids the index gives for a query are the ids of
the stored messages whose token set holds every token of the query. -/
theorem index_ids_iff {s : DB} (hinv : Inv s) (m : String) (t : String) (ts : List String)
    (id : Nat) :
    (id ∈ (indexIDs s.kv m t).filter fun i =>
        ts.all fun t1 => (indexIDs s.kv m t1).contains i) ↔
      ∃ pm, (Key.msg m id, Value.message pm) ∈ s.kv ∧
        ∀ t1 ∈ t :: ts, t1 ∈ messageTokens pm := by
  rw [List.mem_filter, mem_indexIDs]
  simp only [List.all_eq_true, List.mem_cons, forall_eq_or_imp]
  constructor
  · rintro ⟨h1, h2⟩
    have hw := Whole_of_key hinv h1
    simp only [Key.mailbox, Key.id] at hw
    obtain ⟨pm, bytes, b, -, hmsg, -, -, hidx⟩ := hw
    refine ⟨pm, hmsg, (hidx t).1 h1, fun t1 ht1 => (hidx t1).1 (mem_indexIDs.1 ?_)⟩
    simpa using h2 t1 ht1
  · rintro ⟨pm, hmsg, h1, h2⟩
    obtain ⟨bytes, b, -, -, -, hidx⟩ := Whole_msg_unique hinv hmsg
    refine ⟨(hidx t).2 h1, fun t1 ht1 => ?_⟩
    have := mem_indexIDs.2 ((hidx t1).2 (h2 t1 ht1))
    simpa using this

theorem sortDesc_eq_of_same {l1 l2 : List Nat} (h1 : l1.Nodup) (h2 : l2.Nodup)
    (h : ∀ a, a ∈ l1 ↔ a ∈ l2) : sortDesc l1 = sortDesc l2 := by
  unfold sortDesc
  have hperm : l1.Perm l2 := (List.perm_ext_iff_of_nodup h1 h2).2 h
  refine List.eq_of_perm_of_sorted (r := (· ≥ ·)) ?_ (List.sorted_insertionSort _ _)
    (List.sorted_insertionSort _ _)
  exact ((List.perm_insertionSort _ l1).trans hperm).trans (List.perm_insertionSort _ l2).symm

theorem mem_sortDesc {l : List Nat} {a : Nat} : a ∈ sortDesc l ↔ a ∈ l :=
  (List.perm_insertionSort _ l).mem_iff

theorem length_sortDesc (l : List Nat) : (sortDesc l).length = l.length :=
  (List.perm_insertionSort _ l).length_eq

theorem fetchSummary_of_stored {s : DB} (hinv : Inv s) {m : String} {id : Nat}
    {pm : ParsedMessage} (hmsg : (Key.msg m id, Value.message pm) ∈ s.kv) :
    ∃ sm, fetchSummary s.kv m id = some sm ∧ sm.ID = id ∧ sm.From = pm.From ∧ sm.To = pm.To ∧
      sm.Subject = pm.Subject := by
  obtain ⟨bytes, b, -, hsum, -, -⟩ := Whole_msg_unique hinv hmsg
  have hget := (KV.Get_eq_some_iff hinv.1 _ _).2 hsum
  unfold fetchSummary
  rw [hget]
  exact ⟨_, rfl, rfl, rfl, rfl, rfl⟩

theorem length_filterMap_of_some {α β : Type} (f : α → Option β) (l : List α)
    (h : ∀ a ∈ l, (f a).isSome) : (l.filterMap f).length = l.length := by
  induction l with
  | nil => rfl
  | cons a rest ih =>
      have ha := h a (List.mem_cons_self _ _)
      obtain ⟨b, hb⟩ := Option.isSome_iff_exists.1 ha
      rw [List.filterMap_cons, hb]
      simp [ih fun x hx => h x (List.mem_cons_of_mem _ hx)]

/-- Claim C3, with the token set of the store. In every reachable open state,
for every mailbox, every query with at least one token and every limit,
`Search(m, q, 0, limit)` returns the summaries of exactly the stored messages
of `m` whose token set (from/to/cc names and addresses, subject, text body and
part filenames) contains every token of `q`, newest first and cut to `limit`
entries: the result has min(limit, number of matching messages) entries, and
each entry has the id, From, To and Subject of a matching stored message. -/
theorem Search_exact (P : Parser) (s : DB) (m q : String) (limit : Nat)
    (hreach : Reachable P s) (hopen : s.closed = false) (hq : tokenize q ≠ []) :
    Search m q 0 limit s = Except.ok (claimedSearch messageTokens s m q limit) ∧
      (claimedSearch messageTokens s m q limit).length =
        min limit (matchingIDs messageTokens s.kv m q).length ∧
      ∀ sm ∈ claimedSearch messageTokens s m q limit,
        ∃ pm, (sm.ID, pm) ∈ storedMessages s.kv m ∧ (∀ t ∈ tokenize q, t ∈ messageTokens pm) ∧
          sm.From = pm.From ∧ sm.To = pm.To ∧ sm.Subject = pm.Subject := by
  have hinv := Inv_of_Reachable hreach
  refine ⟨?_, ?_, ?_⟩
  · unfold Search
    simp only [hopen, Bool.false_eq_true, if_false]
    cases htok : tokenize q with
    | nil => exact absurd htok hq
    | cons t ts =>
        simp only [List.drop_zero]
        unfold claimedSearch
        congr 3
        apply sortDesc_eq_of_same
        · exact (List.nodup_dedup _).filter _
        · exact List.nodup_dedup _
        · intro id
          rw [index_ids_iff hinv, mem_matchingIDs, htok]
  · unfold claimedSearch
    rw [length_filterMap_of_some, List.length_take, length_sortDesc]
    intro id hid
    have hid2 := mem_sortDesc.1 (List.mem_of_mem_take hid)
    obtain ⟨pm, hmsg, -⟩ := mem_matchingIDs.1 hid2
    obtain ⟨sm, hsm, -⟩ := fetchSummary_of_stored hinv hmsg
    rw [hsm]
    rfl
  · intro sm hsm
    unfold claimedSearch at hsm
    obtain ⟨id, hid, hf⟩ := List.mem_filterMap.1 hsm
    have hid2 := mem_sortDesc.1 (List.mem_of_mem_take hid)
    obtain ⟨pm, hmsg, htoks⟩ := mem_matchingIDs.1 hid2
    obtain ⟨sm1, hsm1, h1, h2, h3, h4⟩ := fetchSummary_of_stored hinv hmsg
    rw [hsm1] at hf
    injection hf with hf
    subst hf
    refine ⟨pm, ?_, htoks, h2, h3, h4⟩
    rw [h1]
    exact mem_storedMessages.2 hmsg

/-- Claim C3 as worded fails: a message whose copy recipient is Carol is
found by the query `carol`, although none of its from/to names and addresses,
subject and text body has that token. -/
theorem Search_cc_counterexample :
    ((Search DefaultMailbox "carol" 0 10 oneStored).toOption.map fun l =>
        l.map fun sm => sm.ID) = some [10] ∧
      claimedSearch claimTokens oneStored DefaultMailbox "carol" 10 = [] ∧
      Search DefaultMailbox "carol" 0 10 oneStored ≠
        Except.ok (claimedSearch claimTokens oneStored DefaultMailbox "carol" 10) := by
  decide

end storage

namespace storage

theorem Reachable_run (P : Parser) (ops : List Op) :
    ∀ s : DB, Reachable P s → Reachable P (run P s ops) := by
  induction ops with
  | nil => exact fun s h => h
  | cons op rest ih => exact fun s h => ih (step P s op) (Reachable.next s op h)

/-- Witness for claim C1: with three messages in `INBOX`, `Count` is 3,
`DeleteAllMessages` succeeds, and the theorem gives the count 0 afterwards. -/
theorem DeleteAllMessages_count_zero_witness :
    Count DefaultMailbox threeStored = Except.ok 3 ∧
      DeleteAllMessages DefaultMailbox threeStored = Except.ok ((), truncated) ∧
      Count DefaultMailbox truncated = Except.ok 0 ∧
      ∀ k ∈ truncated.kv.keys, k.mailbox ≠ DefaultMailbox :=
  ⟨by decide, by decide,
    DeleteAllMessages_count_zero DefaultMailbox threeStored truncated (by decide)⟩

/-- Witness for claim C2: on the empty store, a run with three successful
stores of the same blob and one successful delete (the second delete of the
same id fails) leaves the count at 2. -/
theorem Count_consistency_witness :
    Count DefaultMailbox emptyDB = Except.ok 0 ∧ emptyDB.maxMessages = 0 ∧
      (∀ op ∈ sampleRun, keepsMailbox DefaultMailbox op = true) ∧
      storesInto sampleParser DefaultMailbox emptyDB sampleRun = 3 ∧
      deletesFrom sampleParser DefaultMailbox emptyDB sampleRun = 1 ∧
      deletesFrom sampleParser DefaultMailbox emptyDB sampleRun ≤
        storesInto sampleParser DefaultMailbox emptyDB sampleRun ∧
      Count DefaultMailbox (run sampleParser emptyDB sampleRun) =
        Except.ok (storesInto sampleParser DefaultMailbox emptyDB sampleRun -
          deletesFrom sampleParser DefaultMailbox emptyDB sampleRun) :=
  ⟨by decide, by decide, by decide, by decide, by decide,
    Count_consistency sampleParser DefaultMailbox emptyDB sampleRun (Reachable.init _)
      (by decide) (by decide) (by decide)⟩

/-- Witness for claim C3: with three messages in `INBOX` that all match the
query, a search with limit 2 returns two summaries. -/
theorem Search_exact_witness :
    threeStored.closed = false ∧ tokenize "Carol example" ≠ [] ∧
      Search DefaultMailbox "Carol example" 0 2 threeStored =
        Except.ok (claimedSearch messageTokens threeStored DefaultMailbox "Carol example" 2) ∧
      (claimedSearch messageTokens threeStored DefaultMailbox "Carol example" 2).length =
        min 2 (matchingIDs messageTokens threeStored.kv DefaultMailbox "Carol example").length ∧
      ∀ sm ∈ claimedSearch messageTokens threeStored DefaultMailbox "Carol example" 2,
        ∃ pm, (sm.ID, pm) ∈ storedMessages threeStored.kv DefaultMailbox ∧
          (∀ t ∈ tokenize "Carol example", t ∈ messageTokens pm) ∧
          sm.From = pm.From ∧ sm.To = pm.To ∧ sm.Subject = pm.Subject :=
  ⟨by decide, by decide,
    Search_exact sampleParser threeStored DefaultMailbox "Carol example" 2
      (Reachable_run sampleParser _ emptyDB (Reachable.init _)) (by decide) (by decide)⟩

end storage
